import Mathlib

/-!
Verification development for the calendar synchronisation engine in
`src/sync.py` (functions `sync_caldav_caldav`, `sync_caldav_busy`,
`sync_caldav_full_oneway` and their helpers `_parse_ical_metadata`,
`_parse_dt_range`, `_build_busy_ical`, `_get_summary`, `_update_src_ical`).

The embedding is shallow:

* Timestamps (`datetime` values compared with `<`/`>`) are integers.
* An iCalendar byte blob is abstracted by `Raw`: either a `vevent` carrying
  exactly the fields the Python code ever reads out of the blob
  (UID, LAST-MODIFIED, DTSTAMP, SUMMARY, DTSTART, DTEND), or `noVevent`,
  a blob in which `walk()` finds no VEVENT component.
* A fetched CalDAV event (`CaldavEvent` wrapper) is `Event`: its server URL
  plus the raw blob returned by `to_ical()`.
* Backend calls are recorded as `Op` values; an `Op` carries the event object
  whose `.url` the code passes, and the raw payload it sends.
* Python dicts keyed by UID are association lists with in-place overwrite
  (`alInsert`), which matches dict assignment; lookups are first-match.
* Raised exceptions that the code does not catch are `Except.error`.
-/

namespace CalSync

/-- Timestamps: `datetime` values, compared by the code only with a total
order.  Embedded as integers. -/
abbrev Ts := Int

/-- Event UIDs (strings in the Python code). -/
abbrev Uid := String

/-- Abstraction of one iCalendar byte blob, exposing exactly the fields the
Python code reads from it.  `noVevent` models a blob whose `walk()` contains
no VEVENT component. -/
inductive Raw where
  | vevent (uid : Uid) (lastModified dtstamp : Option Ts) (summary : String)
      (dtstart dtend : Ts)
  | noVevent
  deriving Repr, DecidableEq

/-- A fetched event as the code sees it: the `CaldavEvent` wrapper exposing
`.url` and `.to_ical()` (the raw blob). -/
structure Event where
  url : String
  raw : Raw
  deriving Repr, DecidableEq

/-- One backend mutation issued by the sync engine.  `Src` operations go to
the first (source / calendar A) client, `Tgt` operations to the second
(target / calendar B) client.  Delete and update carry the event object whose
`.url` the Python code passes to the client. -/
inductive Op where
  | deleteSrc (e : Event)
  | deleteTgt (e : Event)
  | createSrc (ical : Raw)
  | createTgt (ical : Raw)
  | updateSrc (e : Event) (ical : Raw)
  | updateTgt (e : Event) (ical : Raw)
  deriving Repr, DecidableEq

/-- Embedding of `_parse_ical_metadata`: UID plus LAST-MODIFIED falling back
to DTSTAMP; raises (`error`) when no VEVENT is found or neither timestamp
field yields a datetime. -/
def parseIcalMetadata : Raw → Except String (Uid × Ts)
  | Raw.vevent uid lm ds _ _ _ =>
      match lm.orElse (fun _ => ds) with
      | some t => Except.ok (uid, t)
      | none => Except.error "Could not parse timestamp"
  | Raw.noVevent => Except.error "No VEVENT found in ical data"

/-- Embedding of `_get_summary`: the SUMMARY of the first VEVENT, or the empty
string when no VEVENT exists. -/
def getSummary : Raw → String
  | Raw.vevent _ _ _ s _ _ => s
  | Raw.noVevent => ""

/-- Embedding of `_parse_dt_range` restricted to blobs holding a VEVENT.
On `noVevent` the Python helper raises; every call site in the reconcilers
only reaches it through events that already passed `_parse_ical_metadata`,
so the defaulted branch is unreachable in any run. -/
def dtRangeOf : Raw → Ts × Ts
  | Raw.vevent _ _ _ _ s e => (s, e)
  | Raw.noVevent => (0, 0)

/-- Embedding of `_build_busy_ical`: a fresh VCALENDAR with one VEVENT whose
UID/DTSTART/DTEND are given, SUMMARY is "Busy", and DTSTAMP is the wall-clock
time `now` at which the run executes (`datetime.now(timezone.utc)`).  It has
no LAST-MODIFIED property. -/
def buildBusyIcal (uid : Uid) (dtstart dtend now : Ts) : Raw :=
  Raw.vevent uid none (some now) "Busy" dtstart dtend

/-- Embedding of `_update_src_ical`: rewrite DTSTART/DTEND of the VEVENT,
leaving every other property intact; a blob without VEVENT is returned
unchanged (the loop body never runs). -/
def updateSrcIcal (raw : Raw) (newStart newEnd : Ts) : Raw :=
  match raw with
  | Raw.vevent uid lm ds s _ _ => Raw.vevent uid lm ds s newStart newEnd
  | Raw.noVevent => Raw.noVevent

/-- UID of a blob as `_parse_ical_metadata` would report it (defaulted on
blobs the parser rejects; only used where parsing is known to succeed). -/
def uidOfRaw (r : Raw) : Uid :=
  match parseIcalMetadata r with
  | Except.ok (u, _) => u
  | Except.error _ => ""

/-- Timestamp of a blob as `_parse_ical_metadata` would report it (defaulted
on blobs the parser rejects). -/
def tsOfRaw (r : Raw) : Ts :=
  match parseIcalMetadata r with
  | Except.ok (_, t) => t
  | Except.error _ => 0

@[simp] theorem parseIcalMetadata_vevent_lm (u : Uid) (t : Ts) (ds : Option Ts)
    (s : String) (d1 d2 : Ts) :
    parseIcalMetadata (Raw.vevent u (some t) ds s d1 d2) = Except.ok (u, t) := rfl

/-! ## Association lists with Python-dict semantics -/

/-- First-match lookup, the semantics of `d[k]` / `k in d` on a dict whose
insertions overwrite in place. -/
def alLookup {α : Type} : List (Uid × α) → Uid → Option α
  | [], _ => none
  | (k, v) :: rest, u => if k = u then some v else alLookup rest u

/-- Dict assignment `d[k] = v`: overwrite the existing binding in place, or
append a new one. -/
def alInsert {α : Type} : List (Uid × α) → Uid → α → List (Uid × α)
  | [], u, v => [(u, v)]
  | (k, w) :: rest, u, v =>
      if k = u then (k, v) :: rest else (k, w) :: alInsert rest u v

/-- Dict deletion (`pop`): drop every binding of the key. -/
def alErase {α : Type} : List (Uid × α) → Uid → List (Uid × α)
  | [], _ => []
  | (k, w) :: rest, u =>
      if k = u then alErase rest u else (k, w) :: alErase rest u

/-- The key list of a dict (used to embed `set(d.keys())`). -/
def alKeys {α : Type} (m : List (Uid × α)) : List Uid := m.map Prod.fst

/-- Membership `k in d` as a Bool. -/
def alHas {α : Type} (m : List (Uid × α)) (u : Uid) : Bool :=
  (alLookup m u).isSome

@[simp] theorem alLookup_nil {α : Type} (u : Uid) :
    alLookup ([] : List (Uid × α)) u = none := rfl

@[simp] theorem alLookup_cons {α : Type} (k : Uid) (v : α) (rest : List (Uid × α))
    (u : Uid) :
    alLookup ((k, v) :: rest) u = if k = u then some v else alLookup rest u := rfl

theorem alLookup_insert_self {α : Type} (m : List (Uid × α)) (u : Uid) (v : α) :
    alLookup (alInsert m u v) u = some v := by
  induction m with
  | nil => simp [alInsert]
  | cons p rest ih =>
      obtain ⟨k, w⟩ := p
      by_cases h : k = u <;> simp [alInsert, h, ih]

theorem alLookup_insert_ne {α : Type} (m : List (Uid × α)) (u x : Uid) (v : α)
    (h : x ≠ u) : alLookup (alInsert m u v) x = alLookup m x := by
  induction m with
  | nil =>
      have : ¬ u = x := fun hh => h hh.symm
      simp [alInsert, alLookup, this]
  | cons p rest ih =>
      obtain ⟨k, w⟩ := p
      by_cases hk : k = u
      · subst hk
        have : ¬ k = x := fun hh => h hh.symm
        simp [alInsert, alLookup, this]
      · simp only [alInsert, if_neg hk, alLookup_cons]
        by_cases hx : k = x <;> simp [hx, ih]

theorem alLookup_erase_self {α : Type} (m : List (Uid × α)) (u : Uid) :
    alLookup (alErase m u) u = none := by
  induction m with
  | nil => simp [alErase]
  | cons p rest ih =>
      obtain ⟨k, w⟩ := p
      by_cases h : k = u <;> simp [alErase, h, ih]

theorem alLookup_erase_ne {α : Type} (m : List (Uid × α)) (u x : Uid)
    (h : x ≠ u) : alLookup (alErase m u) x = alLookup m x := by
  induction m with
  | nil => simp [alErase]
  | cons p rest ih =>
      obtain ⟨k, w⟩ := p
      by_cases hk : k = u
      · subst hk
        have : ¬ k = x := fun hh => h hh.symm
        simp [alErase, alLookup, this, ih]
      · simp only [alErase, if_neg hk, alLookup_cons]
        by_cases hx : k = x <;> simp [hx, ih]

theorem alLookup_mem {α : Type} {m : List (Uid × α)} {u : Uid} {v : α}
    (h : alLookup m u = some v) : (u, v) ∈ m := by
  induction m with
  | nil => simp [alLookup] at h
  | cons p rest ih =>
      obtain ⟨k, w⟩ := p
      by_cases hk : k = u
      · subst hk
        rw [alLookup_cons, if_pos rfl] at h
        cases h
        exact List.mem_cons_self _ _
      · simp only [alLookup_cons, if_neg hk] at h
        exact List.mem_cons_of_mem _ (ih h)

theorem alLookup_isSome_of_mem_keys {α : Type} {m : List (Uid × α)} {u : Uid}
    (h : u ∈ alKeys m) : (alLookup m u).isSome := by
  induction m with
  | nil => simp [alKeys] at h
  | cons p rest ih =>
      obtain ⟨k, w⟩ := p
      by_cases hk : k = u
      · simp [alLookup, hk]
      · simp only [alKeys, List.map_cons, List.mem_cons] at h
        rcases h with h | h
        · exact absurd h.symm hk
        · simpa [alLookup, hk] using ih h

theorem mem_keys_of_alLookup_isSome {α : Type} {m : List (Uid × α)} {u : Uid}
    (h : (alLookup m u).isSome) : u ∈ alKeys m := by
  induction m with
  | nil => simp [alLookup] at h
  | cons p rest ih =>
      obtain ⟨k, w⟩ := p
      by_cases hk : k = u
      · simp [alKeys, hk]
      · simp only [alLookup_cons, if_neg hk] at h
        exact List.mem_cons_of_mem _ (ih h)

theorem alLookup_eq_none_of_not_mem_keys {α : Type} {m : List (Uid × α)}
    {u : Uid} (h : u ∉ alKeys m) : alLookup m u = none := by
  cases hl : alLookup m u with
  | none => rfl
  | some v =>
      exact absurd (mem_keys_of_alLookup_isSome (by simp [hl])) h

/-! ## Set-valued accumulators (`set.add`, `set.discard`) -/

/-- Embedding of `set.add`: append when absent. -/
def setAdd (l : List Uid) (u : Uid) : List Uid :=
  if u ∈ l then l else l ++ [u]

theorem mem_setAdd {l : List Uid} {u x : Uid} :
    x ∈ setAdd l u ↔ x ∈ l ∨ x = u := by
  by_cases h : u ∈ l
  · simp only [setAdd, if_pos h]
    constructor
    · exact Or.inl
    · rintro (hx | rfl)
      · exact hx
      · exact h
  · simp [setAdd, if_neg h]

theorem mem_setAdd_self (l : List Uid) (u : Uid) : u ∈ setAdd l u :=
  mem_setAdd.mpr (Or.inr rfl)

theorem mem_setAdd_of_mem {l : List Uid} {x : Uid} (u : Uid) (h : x ∈ l) :
    x ∈ setAdd l u := mem_setAdd.mpr (Or.inl h)

theorem mem_of_mem_setAdd_ne {l : List Uid} {u x : Uid}
    (h : x ∈ setAdd l u) (hne : x ≠ u) : x ∈ l := by
  rcases mem_setAdd.mp h with hx | hx
  · exact hx
  · exact absurd hx hne

/-- Elements surviving `List.erase` were in the original list. -/
theorem mem_of_mem_erase {l : List Uid} {u x : Uid} (h : x ∈ l.erase u) :
    x ∈ l := List.mem_of_mem_erase h

/-! ## FULL mode: `sync_caldav_caldav`

The function builds `meta_a` / `meta_b` (uid → `(last_mod, event)`) from the
two fetched views, then reconciles every uid in
`set(old_state) | set(meta_a) | set(meta_b)`. -/

/-- A metadata dict entry as built in step 3 of `sync_caldav_caldav`:
`meta[uid] = (lm, e)`. -/
abbrev FullMeta := List (Uid × (Ts × Event))

/-- The body of the per-uid reconciliation loop of `sync_caldav_caldav`
(lines 80–122), as a function of this uid's presence data: previous state
entry, `meta_a` entry, `meta_b` entry.  Returns the backend operations issued
for this uid and the entry recorded in `new_state` (None = omitted). -/
def fullStep (prev : Option Ts) :
    Option (Ts × Event) → Option (Ts × Event) → List Op × Option Ts
  | some (lmA, eA), none =>
      if prev.isSome then ([Op.deleteSrc eA], none)
      else ([Op.createTgt eA.raw], some lmA)
  | none, some (lmB, eB) =>
      if prev.isSome then ([Op.deleteTgt eB], none)
      else ([Op.createSrc eB.raw], some lmB)
  | some (lmA, eA), some (lmB, eB) =>
      if lmA > lmB then ([Op.updateTgt eB eA.raw], some lmA)
      else if lmB > lmA then ([Op.updateSrc eA eB.raw], some lmB)
      else ([], some lmA)
  | none, none => ([], none)

/-- The uid set `set(old_state) | set(meta_a) | set(meta_b)` (iteration order
of a Python set is unspecified; the claims are insensitive to it). -/
def allUidsFull (old : List (Uid × Ts)) (mA mB : FullMeta) : List Uid :=
  (alKeys old ++ alKeys mA ++ alKeys mB).dedup

/-- The reconciliation phase of `sync_caldav_caldav` (steps 4–5): the ordered
list of backend operations issued and the `new_state` dict persisted. -/
def fullReconcile (old : List (Uid × Ts)) (mA mB : FullMeta) :
    List Op × List (Uid × Ts) :=
  let uids := allUidsFull old mA mB
  ((uids.map fun u =>
      (fullStep (alLookup old u) (alLookup mA u) (alLookup mB u)).1).flatten,
   uids.filterMap fun u =>
     (fullStep (alLookup old u) (alLookup mA u) (alLookup mB u)).2.map
       fun ts => (u, ts))

/-- The FULL-mode decision table exactly as §4.1 of the specification states
it, row by row.  This definition is written from the specification's words,
to be compared with `fullStep`, which is written from the code. -/
def specFullTableStep (prev : Option Ts) (a b : Option (Ts × Event)) :
    List Op × Option Ts :=
  match prev, a, b with
  | some _, some (_, eA), none => ([Op.deleteSrc eA], none)
  | some _, none, some (_, eB) => ([Op.deleteTgt eB], none)
  | none, some (tsA, eA), none => ([Op.createTgt eA.raw], some tsA)
  | none, none, some (tsB, eB) => ([Op.createSrc eB.raw], some tsB)
  | _, some (tsA, eA), some (tsB, eB) =>
      if tsA > tsB then ([Op.updateTgt eB eA.raw], some tsA)
      else if tsB > tsA then ([Op.updateSrc eA eB.raw], some tsB)
      else ([], some tsA)
  | _, none, none => ([], none)

/-- The whole-run reconciliation prescribed by the specification's table:
apply `specFullTableStep` to every uid of the three-way key union. -/
def specFullTableReconcile (old : List (Uid × Ts)) (mA mB : FullMeta) :
    List Op × List (Uid × Ts) :=
  let uids := allUidsFull old mA mB
  ((uids.map fun u =>
      (specFullTableStep (alLookup old u) (alLookup mA u) (alLookup mB u)).1).flatten,
   uids.filterMap fun u =>
     (specFullTableStep (alLookup old u) (alLookup mA u) (alLookup mB u)).2.map
       fun ts => (u, ts))

theorem fullStep_eq_specFullTableStep :
    fullStep = specFullTableStep := by
  funext prev a b
  cases a with
  | none =>
      cases b with
      | none => cases prev <;> rfl
      | some pb => obtain ⟨lmB, eB⟩ := pb; cases prev <;> rfl
  | some pa =>
      obtain ⟨lmA, eA⟩ := pa
      cases b with
      | none => cases prev <;> rfl
      | some pb => obtain ⟨lmB, eB⟩ := pb; cases prev <;> rfl

/-- C2: the FULL-mode reconciler implements exactly the decision table of
§4.1 — for every previous state and every pair of metadata views, the
operations issued and the next state recorded coincide, uid for uid, with the
table's prescription. -/
theorem full_reconciler_implements_decision_table :
    ∀ (old : List (Uid × Ts)) (mA mB : FullMeta),
      fullReconcile old mA mB = specFullTableReconcile old mA mB := by
  intro old mA mB
  unfold fullReconcile specFullTableReconcile
  rw [fullStep_eq_specFullTableStep]

/-! ## FULL_ONEWAY mode: `sync_caldav_full_oneway`

`meta_src` maps uid → `(lm, raw)` over the source events whose SUMMARY is not
"Busy"; `meta_tgt` maps uid → `(lm, e)` over all target events.  The loop
deletes on the target only uids that are in the previous state, creates or
updates from source to target, and leaves target-only uids untouched. -/

/-- Source metadata of `sync_caldav_full_oneway`: `meta_src[uid] = (lm, raw)`. -/
abbrev OnewaySrcMeta := List (Uid × (Ts × Raw))

/-- Target metadata of `sync_caldav_full_oneway`: `meta_tgt[uid] = (lm, e)`. -/
abbrev OnewayTgtMeta := List (Uid × (Ts × Event))

/-- The body of the per-uid loop of `sync_caldav_full_oneway`
(lines 396–429). -/
def onewayStep (prev : Option Ts) :
    Option (Ts × Raw) → Option (Ts × Event) → List Op × Option Ts
  | none, some (_, te) =>
      if prev.isSome then ([Op.deleteTgt te], none) else ([], none)
  | some (lm, raw), none => ([Op.createTgt raw], some lm)
  | some (lmS, raw), some (lmT, te) =>
      if lmS > lmT then ([Op.updateTgt te raw], some lmS) else ([], some lmT)
  | none, none => ([], none)

/-- The uid set `set(old_state) | set(meta_src) | set(meta_tgt)`. -/
def allUidsOneway (old : List (Uid × Ts)) (mS : OnewaySrcMeta)
    (mT : OnewayTgtMeta) : List Uid :=
  (alKeys old ++ alKeys mS ++ alKeys mT).dedup

/-- The reconciliation phase of `sync_caldav_full_oneway` (step 5): issued
operations and the uid → timestamp map persisted (without its `__mode` tag). -/
def onewayReconcile (old : List (Uid × Ts)) (mS : OnewaySrcMeta)
    (mT : OnewayTgtMeta) : List Op × List (Uid × Ts) :=
  let uids := allUidsOneway old mS mT
  ((uids.map fun u =>
      (onewayStep (alLookup old u) (alLookup mS u) (alLookup mT u)).1).flatten,
   uids.filterMap fun u =>
     (onewayStep (alLookup old u) (alLookup mS u) (alLookup mT u)).2.map
       fun ts => (u, ts))

theorem mem_flatten_map {β : Type} (f : Uid → List β) (l : List Uid) (x : β) :
    x ∈ (l.map f).flatten ↔ ∃ u ∈ l, x ∈ f u := by
  simp

/-- Lookup in a state assembled by `filterMap` over a uid list: the value is
the per-uid result whenever the uid occurs in the list, and `none` otherwise. -/
theorem alLookup_filterMap_state (g : Uid → Option Ts) (l : List Uid) (u : Uid) :
    alLookup (l.filterMap fun v => (g v).map fun ts => (v, ts)) u =
      if u ∈ l then g u else none := by
  induction l with
  | nil => simp
  | cons v rest ih =>
      simp only [List.filterMap_cons]
      by_cases hv : v = u
      · subst hv
        cases hg : g v with
        | none =>
            simp only [Option.map_none']
            rw [ih]
            by_cases hm : v ∈ rest <;>
              simp [hm, hg, List.mem_cons_self]
        | some ts =>
            simp [alLookup_cons, hg, List.mem_cons_self]

      · have hne : u ≠ v := fun h => hv h.symm
        have hmemeq : (u ∈ v :: rest) ↔ (u ∈ rest) := by
          constructor
          · intro h
            rcases List.mem_cons.mp h with h | h
            · exact absurd h hne
            · exact h
          · exact fun h => List.mem_cons_of_mem _ h
        cases hg : g v with
        | none =>
            simp only [Option.map_none']
            rw [ih]
            by_cases hm : u ∈ rest
            · rw [if_pos hm, if_pos (hmemeq.mpr hm)]
            · rw [if_neg hm, if_neg (fun h => hm (hmemeq.mp h))]
        | some ts =>
            simp only [Option.map_some']
            rw [alLookup_cons, if_neg hv, ih]
            by_cases hm : u ∈ rest
            · rw [if_pos hm, if_pos (hmemeq.mpr hm)]
            · rw [if_neg hm, if_neg (fun h => hm (hmemeq.mp h))]

/-- C5: in every FULL_ONEWAY reconciliation, (1) every delete issued on the
target concerns an event whose uid is a key of the previously persisted
state, and (2) a uid present only on the target and absent from the previous
state triggers no operation against its event and is not recorded in the next
state. -/
theorem oneway_delete_requires_prior_presence
    (old : List (Uid × Ts)) (mS : OnewaySrcMeta) (mT : OnewayTgtMeta) :
    (∀ e : Event, Op.deleteTgt e ∈ (onewayReconcile old mS mT).1 →
        ∃ u ts, alLookup mT u = some (ts, e) ∧ (alLookup old u).isSome) ∧
    (∀ u : Uid, (alLookup mT u).isSome → alLookup mS u = none →
        alLookup old u = none →
        alLookup (onewayReconcile old mS mT).2 u = none ∧
        ∀ e ts, alLookup mT u = some (ts, e) →
          (∀ v ts', alLookup mT v = some (ts', e) → v = u) →
          Op.deleteTgt e ∉ (onewayReconcile old mS mT).1 ∧
          ∀ r, Op.updateTgt e r ∉ (onewayReconcile old mS mT).1) := by
  constructor
  · intro e hmem
    rw [onewayReconcile] at hmem
    rw [mem_flatten_map] at hmem
    obtain ⟨u, _, hu⟩ := hmem
    refine ⟨u, ?_⟩
    cases hs : alLookup mS u with
    | some p =>
        obtain ⟨lmS, raw⟩ := p
        cases ht : alLookup mT u with
        | none => simp [onewayStep, hs, ht] at hu
        | some q =>
            obtain ⟨lmT, te⟩ := q
            rw [hs, ht] at hu
            by_cases hlt : lmS > lmT <;> simp [onewayStep, hlt] at hu
    | none =>
        cases ht : alLookup mT u with
        | none => simp [onewayStep, hs, ht] at hu
        | some q =>
            obtain ⟨lmT, te⟩ := q
            rw [hs, ht] at hu
            by_cases hp : (alLookup old u).isSome
            · simp only [onewayStep, if_pos hp, List.mem_singleton] at hu
              have hte : e = te := by injection hu
              exact ⟨lmT, by simp [ht, hte], hp⟩
            · simp [onewayStep, hp] at hu
  · intro u htgt hsrc hold
    constructor
    · rw [onewayReconcile]
      simp only
      rw [alLookup_filterMap_state]
      by_cases hm : u ∈ allUidsOneway old mS mT
      · simp only [if_pos hm, hsrc, hold]
        cases ht : alLookup mT u with
        | none => simp [onewayStep]
        | some q => obtain ⟨lmT, te⟩ := q; simp [onewayStep, hold]
      · simp [hm]
    · intro e ts ht hinj
      have notop : ∀ v, v ∈ allUidsOneway old mS mT →
          Op.deleteTgt e ∉
            (onewayStep (alLookup old v) (alLookup mS v) (alLookup mT v)).1 ∧
          ∀ r, Op.updateTgt e r ∉
            (onewayStep (alLookup old v) (alLookup mS v) (alLookup mT v)).1 := by
        intro v _
        by_cases hv : v = u
        · subst hv
          simp [onewayStep, hsrc, ht, hold]
        · cases hs : alLookup mS v with
          | some p =>
              obtain ⟨lmS, raw⟩ := p
              cases htv : alLookup mT v with
              | none => simp [onewayStep, hs, htv]
              | some q =>
                  obtain ⟨lmT, te⟩ := q
                  by_cases hlt : lmS > lmT
                  · refine ⟨?_, ?_⟩
                    · simp [onewayStep, hs, htv, hlt]
                    · intro r hr
                      simp only [onewayStep, hs, htv, if_pos hlt,
                        List.mem_singleton] at hr
                      cases hr
                      exact hv (hinj v lmT htv)
                  · simp [onewayStep, hs, htv, hlt]
          | none =>
              cases htv : alLookup mT v with
              | none => simp [onewayStep, hs, htv]
              | some q =>
                  obtain ⟨lmT, te⟩ := q
                  by_cases hp : (alLookup old v).isSome
                  · refine ⟨?_, ?_⟩
                    · intro hr
                      simp only [onewayStep, hs, htv, if_pos hp,
                        List.mem_singleton] at hr
                      cases hr
                      exact hv (hinj v lmT htv)
                    · simp [onewayStep, hs, htv, hp]
                  · simp [onewayStep, hs, htv, hp]
      constructor
      · intro hmem
        rw [onewayReconcile, mem_flatten_map] at hmem
        obtain ⟨v, hvmem, hv⟩ := hmem
        exact (notop v hvmem).1 hv
      · intro r hmem
        rw [onewayReconcile, mem_flatten_map] at hmem
        obtain ⟨v, hvmem, hv⟩ := hmem
        exact (notop v hvmem).2 r hv

/-! ## BUSY mode: `sync_caldav_busy`

State layout, metadata construction (steps 4a/4b), the three deletion passes
(steps 4a′/5/6 — the "NEW BLOCK" plus the two tombstone passes), and the
sorted per-uid reconciliation loop (step 7). -/

/-- The persisted BUSY state (step 1 / step 8 of `sync_caldav_busy`):
`synced`, `busy_uids`, `tombstones`, `real_uids`. -/
structure BusyState where
  synced : List (Uid × Ts)
  busyUids : List Uid
  tombstones : List Uid
  realUids : List Uid
  deriving Repr, DecidableEq

/-- Source metadata of `sync_caldav_busy` (step 4a):
`src_meta[uid] = (e, raw, lm)`; `raw` is `e.to_ical()`, so the pair
`(event, lm)` carries the same data. -/
abbrev BusySrcMeta := List (Uid × (Event × Ts))

/-- The target events together with their parsed `(uid, last_mod)` metadata.
The code parses each fetched target event once in step 4b and, inside the
duplicate-UID fallback, parses the same unchanged event objects again;
parsing is pure, so carrying the parsed pair is equivalent. -/
abbrev TgtParsed := List (Event × Uid × Ts)

/-- `real_meta` / `busy_meta` entries: uid → `(event, lm)`. -/
abbrev TgtMeta := List (Uid × (Event × Ts))

/-- One iteration of the step-4b classification loop. -/
def tgtMapsStep (acc : TgtMeta × TgtMeta × List Uid) (t : Event × Uid × Ts) :
    TgtMeta × TgtMeta × List Uid :=
  if getSummary t.1.raw ≠ "Busy" then
    (alInsert acc.1 t.2.1 (t.1, t.2.2), acc.2.1, setAdd acc.2.2 t.2.1)
  else
    (acc.1, alInsert acc.2.1 t.2.1 (t.1, t.2.2), acc.2.2)

/-- Step 4b of `sync_caldav_busy`: split the target view into `real_meta`
(SUMMARY ≠ "Busy", uid also collected into `real_uids`) and `busy_meta`. -/
def buildTgtMaps (tp : TgtParsed) : TgtMeta × TgtMeta × List Uid :=
  tp.foldl tgtMapsStep ([], [], [])

/-- One iteration of the "NEW BLOCK" loop. -/
def pass1Step (realMeta : TgtMeta) (acc : List Op × List Uid) (u : Uid) :
    List Op × List Uid :=
  match alLookup realMeta u with
  | some (e, _) => (acc.1 ++ [Op.deleteTgt e], setAdd acc.2 u)
  | none => (acc.1, setAdd acc.2 u)

/-- The "NEW BLOCK" of `sync_caldav_busy` (lines 212–220): for every uid of
the previous run's `real_uids` that is absent from the current source keys,
delete the corresponding real event from the target (when still present
there) and add the uid to the tombstones. -/
def busyPass1 (oldReal srcKeys : List Uid) (realMeta : TgtMeta)
    (tombIn : List Uid) : List Op × List Uid :=
  (oldReal.filter fun u => decide (u ∉ srcKeys)).foldl
    (pass1Step realMeta) ([], tombIn)

/-- One iteration of the pop-and-tombstone loops (steps 5 and 6). -/
def popStep (acc : BusySrcMeta × List Op × List Uid) (u : Uid) :
    BusySrcMeta × List Op × List Uid :=
  match alLookup acc.1 u with
  | some (e, _) =>
      (alErase acc.1 u, acc.2.1 ++ [Op.deleteSrc e], setAdd acc.2.2 u)
  | none => (acc.1, acc.2.1, setAdd acc.2.2 u)

/-- Common shape of steps 5 and 6 of `sync_caldav_busy`: for every uid of the
given set, pop it from `src_meta` (deleting the source event) when present,
and add the uid to the tombstones. -/
def popPass (uids : List Uid) (sm : BusySrcMeta) (opsIn : List Op)
    (tombIn : List Uid) : BusySrcMeta × List Op × List Uid :=
  uids.foldl popStep (sm, opsIn, tombIn)

/-- Sorted iteration: insertion into an ascending list. -/
def insertSorted (x : Uid) : List Uid → List Uid
  | [] => [x]
  | y :: ys => if x ≤ y then x :: y :: ys else y :: insertSorted x ys

/-- Embedding of `sorted(all_uids)` on a set of uids. -/
def sortUids (l : List Uid) : List Uid := l.foldr insertSorted []

/-- The read-only context of the step-7 loop. -/
structure BusyCtx where
  oldSynced : List (Uid × Ts)
  srcMeta : BusySrcMeta
  busyMeta : TgtMeta
  realUids : List Uid
  tgtParsed : TgtParsed
  now : Ts
  putFails : Uid → Bool

/-- The mutable accumulator of the step-7 loop: `new_synced`, `new_busy`, the
threaded `tombstones` set, and the operations issued so far. -/
structure BusyAcc where
  synced : List (Uid × Ts)
  busy : List Uid
  tomb : List Uid
  ops : List Op
  deriving Repr, DecidableEq

/-- One iteration of the step-7 loop of `sync_caldav_busy` (lines 243–305),
branch for branch:
1. uids in `real_uids` are skipped;
2. `uid ∈ old_synced ∧ uid ∉ src_meta ∧ uid ∈ busy_meta`: delete the Busy
   placeholder on the target and discard the uid from the tombstones;
3. `uid ∈ src_meta ∧ uid ∉ busy_meta`: skip when tombstoned, otherwise build
   a Busy blob and create it on the target — when `create_event` raises the
   duplicate-UID `PutError` (modelled by `putFails uid`), fall back to
   updating the first fetched target event with this uid, if any; in either
   case record the uid into `new_synced` and `new_busy`;
4. `uid ∈ src_meta ∧ uid ∈ busy_meta`: newer side wins, recording the newer
   timestamp and the uid into `new_synced` / `new_busy`. -/
def busyLoopStep (ctx : BusyCtx) (acc : BusyAcc) (u : Uid) : BusyAcc :=
  if u ∈ ctx.realUids then acc
  else if (alLookup ctx.oldSynced u).isSome && !(alLookup ctx.srcMeta u).isSome
      && (alLookup ctx.busyMeta u).isSome then
    match alLookup ctx.busyMeta u with
    | some (eT, _) =>
        { acc with ops := acc.ops ++ [Op.deleteTgt eT], tomb := acc.tomb.erase u }
    | none => acc
  else if (alLookup ctx.srcMeta u).isSome && !(alLookup ctx.busyMeta u).isSome then
    if u ∈ acc.tomb then acc
    else
      match alLookup ctx.srcMeta u with
      | some (eS, lmS) =>
          let dr := dtRangeOf eS.raw
          let busyIcal := buildBusyIcal u dr.1 dr.2 ctx.now
          let newOps :=
            if ctx.putFails u then
              match ctx.tgtParsed.find? (fun t => t.2.1 == u) with
              | some tcol => acc.ops ++ [Op.updateTgt tcol.1 busyIcal]
              | none => acc.ops
            else acc.ops ++ [Op.createTgt busyIcal]
          { synced := alInsert acc.synced u lmS, busy := setAdd acc.busy u,
            tomb := acc.tomb, ops := newOps }
      | none => acc
  else if (alLookup ctx.srcMeta u).isSome && (alLookup ctx.busyMeta u).isSome then
    match alLookup ctx.srcMeta u, alLookup ctx.busyMeta u with
    | some (eS, lmS), some (eT, lmT) =>
        if lmS > lmT then
          let dr := dtRangeOf eS.raw
          { synced := alInsert acc.synced u lmS, busy := setAdd acc.busy u,
            tomb := acc.tomb,
            ops := acc.ops ++ [Op.updateTgt eT (buildBusyIcal u dr.1 dr.2 ctx.now)] }
        else if lmT > lmS then
          let dr := dtRangeOf eT.raw
          { synced := alInsert acc.synced u lmT, busy := setAdd acc.busy u,
            tomb := acc.tomb,
            ops := acc.ops ++ [Op.updateSrc eS (updateSrcIcal eS.raw dr.1 dr.2)] }
        else
          { acc with synced := alInsert acc.synced u lmS, busy := setAdd acc.busy u }
    | _, _ => acc
  else acc

/-- Steps 4a′–5 of `sync_caldav_busy`: the "NEW BLOCK" followed by the
first pop-and-tombstone pass (deletions on B of real events). -/
def busyPass2 (prev : BusyState) (srcMeta : BusySrcMeta)
    (tgtParsed : TgtParsed) : BusySrcMeta × List Op × List Uid :=
  popPass (prev.realUids.filter fun u => decide (u ∉ (buildTgtMaps tgtParsed).2.2))
    srcMeta
    (busyPass1 prev.realUids (alKeys srcMeta) (buildTgtMaps tgtParsed).1
      prev.tombstones).1
    (busyPass1 prev.realUids (alKeys srcMeta) (buildTgtMaps tgtParsed).1
      prev.tombstones).2

/-- Steps 4a′–6 of `sync_caldav_busy` chained: the "NEW BLOCK" followed by
the two pop-and-tombstone passes.  Returns the popped `src_meta`, the
operations issued so far, and the accumulated tombstones. -/
def busyPasses (prev : BusyState) (srcMeta : BusySrcMeta)
    (tgtParsed : TgtParsed) : BusySrcMeta × List Op × List Uid :=
  popPass
    (prev.busyUids.filter fun u => decide (u ∉ alKeys (buildTgtMaps tgtParsed).2.1))
    (busyPass2 prev srcMeta tgtParsed).1
    (busyPass2 prev srcMeta tgtParsed).2.1
    (busyPass2 prev srcMeta tgtParsed).2.2

/-- The context in which the step-7 loop of `sync_caldav_busy` runs. -/
def busyCtxOf (prev : BusyState) (srcMeta : BusySrcMeta)
    (tgtParsed : TgtParsed) (now : Ts) (putFails : Uid → Bool) : BusyCtx :=
  ⟨prev.synced, (busyPasses prev srcMeta tgtParsed).1,
   (buildTgtMaps tgtParsed).2.1, (buildTgtMaps tgtParsed).2.2,
   tgtParsed, now, putFails⟩

/-- The sorted uid set `sorted(set(old_synced) | set(src_meta) | set(busy_meta))`
iterated by step 7 (with `src_meta` as left by the pops of steps 5–6). -/
def busyUidsOf (prev : BusyState) (srcMeta : BusySrcMeta)
    (tgtParsed : TgtParsed) : List Uid :=
  sortUids ((alKeys prev.synced ++ alKeys (busyPasses prev srcMeta tgtParsed).1
    ++ alKeys (buildTgtMaps tgtParsed).2.1).dedup)

/-- The loop accumulator at the start of step 7. -/
def busyAcc0Of (prev : BusyState) (srcMeta : BusySrcMeta)
    (tgtParsed : TgtParsed) : BusyAcc :=
  ⟨[], [], (busyPasses prev srcMeta tgtParsed).2.2,
   (busyPasses prev srcMeta tgtParsed).2.1⟩

/-- The reconciliation phase of `sync_caldav_busy` (steps 4a–8): issued
operations in program order and the state persisted in step 8. -/
def busyReconcile (prev : BusyState) (srcMeta : BusySrcMeta)
    (tgtParsed : TgtParsed) (now : Ts) (putFails : Uid → Bool) :
    List Op × BusyState :=
  let acc := (busyUidsOf prev srcMeta tgtParsed).foldl
    (busyLoopStep (busyCtxOf prev srcMeta tgtParsed now putFails))
    (busyAcc0Of prev srcMeta tgtParsed)
  (acc.ops, ⟨acc.synced, acc.busy, acc.tomb, (buildTgtMaps tgtParsed).2.2⟩)

/-! ## Supporting lemmas for the BUSY reconciler -/

theorem insertSorted_perm (x : Uid) (l : List Uid) :
    List.Perm (insertSorted x l) (x :: l) := by
  induction l with
  | nil => exact List.Perm.refl _
  | cons y ys ih =>
      rw [insertSorted]
      by_cases h : x ≤ y
      · rw [if_pos h]
      · rw [if_neg h]
        exact (ih.cons y).trans (List.Perm.swap x y ys)

theorem sortUids_perm (l : List Uid) : List.Perm (sortUids l) l := by
  induction l with
  | nil => exact List.Perm.refl _
  | cons x xs ih =>
      rw [sortUids, List.foldr_cons]
      exact (insertSorted_perm x _).trans (ih.cons x)

theorem mem_sortUids {l : List Uid} {x : Uid} : x ∈ sortUids l ↔ x ∈ l :=
  (sortUids_perm l).mem_iff

theorem sortUids_nodup {l : List Uid} (h : l.Nodup) : (sortUids l).Nodup :=
  ((sortUids_perm l).nodup_iff).mpr h

theorem buildTgt_real_lookup (tp : TgtParsed) :
    ∀ (acc : TgtMeta × TgtMeta × List Uid) (u : Uid) (e : Event) (t : Ts),
      alLookup (tp.foldl tgtMapsStep acc).1 u = some (e, t) →
      alLookup acc.1 u = some (e, t) ∨
        ((e, u, t) ∈ tp ∧ getSummary e.raw ≠ "Busy") := by
  induction tp with
  | nil => intro acc u e t h; exact Or.inl h
  | cons t0 rest ih =>
      obtain ⟨e0, u0, ts0⟩ := t0
      intro acc u e t h
      rw [List.foldl_cons] at h
      rcases ih _ u e t h with h' | h'
      · by_cases hb : getSummary e0.raw ≠ "Busy"
        · simp only [tgtMapsStep, if_pos hb] at h'
          by_cases hu : u0 = u
          · subst hu
            rw [alLookup_insert_self] at h'
            have he : e0 = e ∧ ts0 = t := by
              have := h'
              injection this with h1
              exact ⟨congrArg Prod.fst h1, congrArg Prod.snd h1⟩
            right
            refine ⟨?_, ?_⟩
            · rw [← he.1, ← he.2]; exact List.mem_cons_self _ _
            · rw [← he.1]; exact hb
          · rw [alLookup_insert_ne _ _ _ _ (fun hh => hu hh.symm)] at h'
            exact Or.inl h'
        · simp only [tgtMapsStep, if_neg hb] at h'
          exact Or.inl h'
      · exact Or.inr ⟨List.mem_cons_of_mem _ h'.1, h'.2⟩

theorem buildTgt_busy_lookup (tp : TgtParsed) :
    ∀ (acc : TgtMeta × TgtMeta × List Uid) (u : Uid) (e : Event) (t : Ts),
      alLookup (tp.foldl tgtMapsStep acc).2.1 u = some (e, t) →
      alLookup acc.2.1 u = some (e, t) ∨
        ((e, u, t) ∈ tp ∧ getSummary e.raw = "Busy") := by
  induction tp with
  | nil => intro acc u e t h; exact Or.inl h
  | cons t0 rest ih =>
      obtain ⟨e0, u0, ts0⟩ := t0
      intro acc u e t h
      rw [List.foldl_cons] at h
      rcases ih _ u e t h with h' | h'
      · by_cases hb : getSummary e0.raw ≠ "Busy"
        · simp only [tgtMapsStep, if_pos hb] at h'
          exact Or.inl h'
        · simp only [tgtMapsStep, if_neg hb] at h'
          push_neg at hb
          by_cases hu : u0 = u
          · subst hu
            rw [alLookup_insert_self] at h'
            have he : e0 = e ∧ ts0 = t := by
              injection h' with h1
              exact ⟨congrArg Prod.fst h1, congrArg Prod.snd h1⟩
            right
            refine ⟨?_, ?_⟩
            · rw [← he.1, ← he.2]; exact List.mem_cons_self _ _
            · rw [← he.1]; exact hb
          · rw [alLookup_insert_ne _ _ _ _ (fun hh => hu hh.symm)] at h'
            exact Or.inl h'
      · exact Or.inr ⟨List.mem_cons_of_mem _ h'.1, h'.2⟩

theorem buildTgt_realUids_origin (tp : TgtParsed) :
    ∀ (acc : TgtMeta × TgtMeta × List Uid) (u : Uid),
      u ∈ (tp.foldl tgtMapsStep acc).2.2 →
      u ∈ acc.2.2 ∨ ∃ e t, (e, u, t) ∈ tp ∧ getSummary e.raw ≠ "Busy" := by
  induction tp with
  | nil => intro acc u h; exact Or.inl h
  | cons t0 rest ih =>
      obtain ⟨e0, u0, ts0⟩ := t0
      intro acc u h
      rw [List.foldl_cons] at h
      rcases ih _ u h with h' | h'
      · by_cases hb : getSummary e0.raw ≠ "Busy"
        · simp only [tgtMapsStep, if_pos hb] at h'
          rcases mem_setAdd.mp h' with h'' | h''
          · exact Or.inl h''
          · subst h''
            exact Or.inr ⟨e0, ts0, List.mem_cons_self _ _, hb⟩
        · simp only [tgtMapsStep, if_neg hb] at h'
          exact Or.inl h'
      · obtain ⟨e, t, hmem, hs⟩ := h'
        exact Or.inr ⟨e, t, List.mem_cons_of_mem _ hmem, hs⟩

theorem buildTgt_realUids_mono (tp : TgtParsed) :
    ∀ (acc : TgtMeta × TgtMeta × List Uid) (u : Uid),
      u ∈ acc.2.2 → u ∈ (tp.foldl tgtMapsStep acc).2.2 := by
  induction tp with
  | nil => intro acc u h; exact h
  | cons t0 rest ih =>
      intro acc u h
      rw [List.foldl_cons]
      apply ih
      by_cases hb : getSummary t0.1.raw ≠ "Busy" <;>
        simp [tgtMapsStep, hb, mem_setAdd_of_mem, h]

theorem buildTgt_realUids_of_entry (tp : TgtParsed) :
    ∀ (acc : TgtMeta × TgtMeta × List Uid) (u : Uid) (e : Event) (t : Ts),
      (e, u, t) ∈ tp → getSummary e.raw ≠ "Busy" →
      u ∈ (tp.foldl tgtMapsStep acc).2.2 := by
  induction tp with
  | nil => intro acc u e t h; exact absurd h (List.not_mem_nil _)
  | cons t0 rest ih =>
      intro acc u e t hmem hs
      rw [List.foldl_cons]
      rcases List.mem_cons.mp hmem with h | h
      · apply buildTgt_realUids_mono
        rw [← h]
        simp only [tgtMapsStep, if_pos hs]
        exact mem_setAdd_self _ _
      · exact ih _ u e t h hs

theorem pass1_ops_origin (realMeta : TgtMeta) :
    ∀ (l : List Uid) (acc : List Op × List Uid) (op : Op),
      op ∈ (l.foldl (pass1Step realMeta) acc).1 →
      op ∈ acc.1 ∨
        ∃ u ∈ l, ∃ e t, alLookup realMeta u = some (e, t) ∧ op = Op.deleteTgt e := by
  intro l
  induction l with
  | nil => intro acc op h; exact Or.inl h
  | cons v rest ih =>
      intro acc op h
      rw [List.foldl_cons] at h
      rcases ih _ op h with h' | h'
      · cases hl : alLookup realMeta v with
        | some p =>
            obtain ⟨e, t⟩ := p
            simp only [pass1Step, hl] at h'
            rcases List.mem_append.mp h' with h'' | h''
            · exact Or.inl h''
            · rw [List.mem_singleton] at h''
              exact Or.inr ⟨v, List.mem_cons_self _ _, e, t, hl, h''⟩
        | none =>
            simp only [pass1Step, hl] at h'
            exact Or.inl h'
      · obtain ⟨u, hu, e, t, hl, hop⟩ := h'
        exact Or.inr ⟨u, List.mem_cons_of_mem _ hu, e, t, hl, hop⟩

theorem pass1_tomb_mem (realMeta : TgtMeta) :
    ∀ (l : List Uid) (acc : List Op × List Uid) (x : Uid),
      x ∈ (l.foldl (pass1Step realMeta) acc).2 ↔ x ∈ acc.2 ∨ x ∈ l := by
  intro l
  induction l with
  | nil => intro acc x; simp
  | cons v rest ih =>
      intro acc x
      rw [List.foldl_cons, ih]
      have hstep : (pass1Step realMeta acc v).2 = setAdd acc.2 v := by
        cases hl : alLookup realMeta v with
        | some p => obtain ⟨e, t⟩ := p; simp [pass1Step, hl]
        | none => simp [pass1Step, hl]
      rw [hstep]
      constructor
      · rintro (h | h)
        · rcases mem_setAdd.mp h with h' | h'
          · exact Or.inl h'
          · exact Or.inr (h' ▸ List.mem_cons_self _ _)
        · exact Or.inr (List.mem_cons_of_mem _ h)
      · rintro (h | h)
        · exact Or.inl (mem_setAdd_of_mem _ h)
        · rcases List.mem_cons.mp h with h' | h'
          · exact Or.inl (h' ▸ mem_setAdd_self _ _)
          · exact Or.inr h'

theorem popPass_ops_origin :
    ∀ (l : List Uid) (acc : BusySrcMeta × List Op × List Uid) (op : Op),
      op ∈ (l.foldl popStep acc).2.1 →
      op ∈ acc.2.1 ∨ ∃ e, op = Op.deleteSrc e := by
  intro l
  induction l with
  | nil => intro acc op h; exact Or.inl h
  | cons v rest ih =>
      intro acc op h
      rw [List.foldl_cons] at h
      rcases ih _ op h with h' | h'
      · cases hl : alLookup acc.1 v with
        | some p =>
            obtain ⟨e, t⟩ := p
            simp only [popStep, hl] at h'
            rcases List.mem_append.mp h' with h'' | h''
            · exact Or.inl h''
            · rw [List.mem_singleton] at h''
              exact Or.inr ⟨e, h''⟩
        | none =>
            simp only [popStep, hl] at h'
            exact Or.inl h'
      · exact Or.inr h'

theorem popPass_ops_mono :
    ∀ (l : List Uid) (acc : BusySrcMeta × List Op × List Uid) (op : Op),
      op ∈ acc.2.1 → op ∈ (l.foldl popStep acc).2.1 := by
  intro l
  induction l with
  | nil => intro acc op h; exact h
  | cons v rest ih =>
      intro acc op h
      rw [List.foldl_cons]
      apply ih
      cases hl : alLookup acc.1 v with
      | some p =>
          obtain ⟨e, t⟩ := p
          simp only [popStep, hl]
          exact List.mem_append.mpr (Or.inl h)
      | none => simpa [popStep, hl] using h

theorem popPass_lookup :
    ∀ (l : List Uid) (acc : BusySrcMeta × List Op × List Uid) (u : Uid),
      alLookup (l.foldl popStep acc).1 u =
        if u ∈ l then none else alLookup acc.1 u := by
  intro l
  induction l with
  | nil => intro acc u; simp
  | cons v rest ih =>
      intro acc u
      rw [List.foldl_cons, ih]
      by_cases hv : v = u
      · subst hv
        rw [if_pos (List.mem_cons_self v rest)]
        cases hl : alLookup acc.1 v with
        | some p =>
            obtain ⟨e, t⟩ := p
            simp only [popStep, hl]
            by_cases hr : v ∈ rest
            · rw [if_pos hr]
            · rw [if_neg hr, alLookup_erase_self]
        | none =>
            simp only [popStep, hl]
            by_cases hr : v ∈ rest
            · rw [if_pos hr]
            · rw [if_neg hr]
      · have hmm : (u ∈ v :: rest) ↔ (u ∈ rest) := by
          constructor
          · intro h
            rcases List.mem_cons.mp h with h' | h'
            · exact absurd h'.symm hv
            · exact h'
          · exact List.mem_cons_of_mem _
        have hpres : alLookup (popStep acc v).1 u = alLookup acc.1 u := by
          cases hl : alLookup acc.1 v with
          | some p =>
              obtain ⟨e, t⟩ := p
              simp only [popStep, hl]
              exact alLookup_erase_ne _ _ _ (fun hh => hv hh.symm)
          | none => simp [popStep, hl]
        rw [hpres]
        by_cases hr : u ∈ rest
        · rw [if_pos hr, if_pos (hmm.mpr hr)]
        · rw [if_neg hr, if_neg (fun h => hr (hmm.mp h))]

theorem popPass_tomb_mem :
    ∀ (l : List Uid) (acc : BusySrcMeta × List Op × List Uid) (x : Uid),
      x ∈ (l.foldl popStep acc).2.2 ↔ x ∈ acc.2.2 ∨ x ∈ l := by
  intro l
  induction l with
  | nil => intro acc x; simp
  | cons v rest ih =>
      intro acc x
      rw [List.foldl_cons, ih]
      have hstep : (popStep acc v).2.2 = setAdd acc.2.2 v := by
        cases hl : alLookup acc.1 v with
        | some p => obtain ⟨e, t⟩ := p; simp [popStep, hl]
        | none => simp [popStep, hl]
      rw [hstep]
      constructor
      · rintro (h | h)
        · rcases mem_setAdd.mp h with h' | h'
          · exact Or.inl h'
          · exact Or.inr (h' ▸ List.mem_cons_self _ _)
        · exact Or.inr (List.mem_cons_of_mem _ h)
      · rintro (h | h)
        · exact Or.inl (mem_setAdd_of_mem _ h)
        · rcases List.mem_cons.mp h with h' | h'
          · exact Or.inl (h' ▸ mem_setAdd_self _ _)
          · exact Or.inr h'

/-- Operations emitted by one iteration of the step-7 loop, as a function of
the iterated uid and of whether that uid is tombstoned when its iteration
runs (proof artifact; `busyLoopStep_eq` relates it to `busyLoopStep`). -/
def stepOps (ctx : BusyCtx) (u : Uid) (b : Bool) : List Op :=
  if u ∈ ctx.realUids then []
  else
    match alLookup ctx.oldSynced u, alLookup ctx.srcMeta u,
        alLookup ctx.busyMeta u with
    | _, some (eS, _), none =>
        if b then []
        else
          let dr := dtRangeOf eS.raw
          let busyIcal := buildBusyIcal u dr.1 dr.2 ctx.now
          if ctx.putFails u then
            match ctx.tgtParsed.find? (fun t => t.2.1 == u) with
            | some tcol => [Op.updateTgt tcol.1 busyIcal]
            | none => []
          else [Op.createTgt busyIcal]
    | some _, none, some (eT, _) => [Op.deleteTgt eT]
    | none, none, some _ => []
    | _, some (eS, lmS), some (eT, lmT) =>
        if lmS > lmT then
          let dr := dtRangeOf eS.raw
          [Op.updateTgt eT (buildBusyIcal u dr.1 dr.2 ctx.now)]
        else if lmT > lmS then
          let dr := dtRangeOf eT.raw
          [Op.updateSrc eS (updateSrcIcal eS.raw dr.1 dr.2)]
        else []
    | _, none, none => []

/-- Entry recorded into `new_synced` by one iteration of the step-7 loop
(proof artifact). -/
def stepSyncedVal (ctx : BusyCtx) (u : Uid) (b : Bool) : Option Ts :=
  if u ∈ ctx.realUids then none
  else
    match alLookup ctx.oldSynced u, alLookup ctx.srcMeta u,
        alLookup ctx.busyMeta u with
    | _, some (_, lmS), none => if b then none else some lmS
    | some _, none, some _ => none
    | none, none, some _ => none
    | _, some (_, lmS), some (_, lmT) =>
        if lmS > lmT then some lmS
        else if lmT > lmS then some lmT
        else some lmS
    | _, none, none => none

/-- Whether one iteration of the step-7 loop adds its uid to `new_busy`
(proof artifact). -/
def stepAddsBusy (ctx : BusyCtx) (u : Uid) (b : Bool) : Bool :=
  if u ∈ ctx.realUids then false
  else
    match alLookup ctx.oldSynced u, alLookup ctx.srcMeta u,
        alLookup ctx.busyMeta u with
    | _, some _, none => !b
    | some _, none, some _ => false
    | none, none, some _ => false
    | _, some _, some _ => true
    | _, none, none => false

/-- Whether one iteration of the step-7 loop discards its uid from the
tombstones (proof artifact; independent of the tombstone state). -/
def stepDiscards (ctx : BusyCtx) (u : Uid) : Bool :=
  if u ∈ ctx.realUids then false
  else
    match alLookup ctx.oldSynced u, alLookup ctx.srcMeta u,
        alLookup ctx.busyMeta u with
    | some _, none, some _ => true
    | _, _, _ => false

/-- One loop iteration, decomposed field by field into the four proof-artifact
functions above. -/
theorem busyLoopStep_eq (ctx : BusyCtx) (acc : BusyAcc) (u : Uid) :
    busyLoopStep ctx acc u =
      { synced :=
          match stepSyncedVal ctx u (decide (u ∈ acc.tomb)) with
          | some ts => alInsert acc.synced u ts
          | none => acc.synced,
        busy :=
          if stepAddsBusy ctx u (decide (u ∈ acc.tomb)) then setAdd acc.busy u
          else acc.busy,
        tomb := if stepDiscards ctx u then acc.tomb.erase u else acc.tomb,
        ops := acc.ops ++ stepOps ctx u (decide (u ∈ acc.tomb)) } := by
  by_cases h1 : u ∈ ctx.realUids
  · simp [busyLoopStep, stepOps, stepSyncedVal, stepAddsBusy, stepDiscards, h1]
  · cases hO : alLookup ctx.oldSynced u with
    | some vO =>
        cases hS : alLookup ctx.srcMeta u with
        | some vS =>
            obtain ⟨eS, lmS⟩ := vS
            cases hB : alLookup ctx.busyMeta u with
            | some vB =>
                obtain ⟨eT, lmT⟩ := vB
                by_cases hgt : lmS > lmT
                · simp [busyLoopStep, stepOps, stepSyncedVal, stepAddsBusy,
                    stepDiscards, h1, hO, hS, hB, hgt]
                · by_cases hlt : lmT > lmS <;>
                    simp [busyLoopStep, stepOps, stepSyncedVal, stepAddsBusy,
                      stepDiscards, h1, hO, hS, hB, hgt, hlt]
            | none =>
                by_cases hb : u ∈ acc.tomb
                · simp [busyLoopStep, stepOps, stepSyncedVal, stepAddsBusy,
                    stepDiscards, h1, hO, hS, hB, hb]
                · by_cases hp : ctx.putFails u
                  · cases hf : ctx.tgtParsed.find? (fun t => t.2.1 == u) <;>
                      simp [busyLoopStep, stepOps, stepSyncedVal, stepAddsBusy,
                        stepDiscards, h1, hO, hS, hB, hb, hp, hf]
                  · simp [busyLoopStep, stepOps, stepSyncedVal, stepAddsBusy,
                      stepDiscards, h1, hO, hS, hB, hb, hp]
        | none =>
            cases hB : alLookup ctx.busyMeta u with
            | some vB =>
                obtain ⟨eT, lmT⟩ := vB
                simp [busyLoopStep, stepOps, stepSyncedVal, stepAddsBusy,
                  stepDiscards, h1, hO, hS, hB]
            | none =>
                simp [busyLoopStep, stepOps, stepSyncedVal, stepAddsBusy,
                  stepDiscards, h1, hO, hS, hB]
    | none =>
        cases hS : alLookup ctx.srcMeta u with
        | some vS =>
            obtain ⟨eS, lmS⟩ := vS
            cases hB : alLookup ctx.busyMeta u with
            | some vB =>
                obtain ⟨eT, lmT⟩ := vB
                by_cases hgt : lmS > lmT
                · simp [busyLoopStep, stepOps, stepSyncedVal, stepAddsBusy,
                    stepDiscards, h1, hO, hS, hB, hgt]
                · by_cases hlt : lmT > lmS <;>
                    simp [busyLoopStep, stepOps, stepSyncedVal, stepAddsBusy,
                      stepDiscards, h1, hO, hS, hB, hgt, hlt]
            | none =>
                by_cases hb : u ∈ acc.tomb
                · simp [busyLoopStep, stepOps, stepSyncedVal, stepAddsBusy,
                    stepDiscards, h1, hO, hS, hB, hb]
                · by_cases hp : ctx.putFails u
                  · cases hf : ctx.tgtParsed.find? (fun t => t.2.1 == u) <;>
                      simp [busyLoopStep, stepOps, stepSyncedVal, stepAddsBusy,
                        stepDiscards, h1, hO, hS, hB, hb, hp, hf]
                  · simp [busyLoopStep, stepOps, stepSyncedVal, stepAddsBusy,
                      stepDiscards, h1, hO, hS, hB, hb, hp]
        | none =>
            cases hB : alLookup ctx.busyMeta u with
            | some vB =>
                obtain ⟨eT, lmT⟩ := vB
                simp [busyLoopStep, stepOps, stepSyncedVal, stepAddsBusy,
                  stepDiscards, h1, hO, hS, hB]
            | none =>
                simp [busyLoopStep, stepOps, stepSyncedVal, stepAddsBusy,
                  stepDiscards, h1, hO, hS, hB]

theorem step_tomb_mem_ne (ctx : BusyCtx) (acc : BusyAcc) (u x : Uid)
    (h : x ≠ u) : x ∈ (busyLoopStep ctx acc u).tomb ↔ x ∈ acc.tomb := by
  rw [busyLoopStep_eq]
  by_cases hd : stepDiscards ctx u
  · simp only [if_pos hd]
    exact List.mem_erase_of_ne h
  · simp only [if_neg hd]

theorem step_tomb_subset (ctx : BusyCtx) (acc : BusyAcc) (u x : Uid)
    (h : x ∈ (busyLoopStep ctx acc u).tomb) : x ∈ acc.tomb := by
  rw [busyLoopStep_eq] at h
  cases hd : stepDiscards ctx u with
  | true =>
      simp only [hd, if_true] at h
      exact List.mem_of_mem_erase h
  | false =>
      simpa [hd] using h

theorem step_busy_mem_ne (ctx : BusyCtx) (acc : BusyAcc) (u x : Uid)
    (h : x ≠ u) : x ∈ (busyLoopStep ctx acc u).busy ↔ x ∈ acc.busy := by
  rw [busyLoopStep_eq]
  by_cases ha : stepAddsBusy ctx u (decide (u ∈ acc.tomb))
  · simp only [if_pos ha]
    constructor
    · intro hm
      exact mem_of_mem_setAdd_ne hm h
    · exact mem_setAdd_of_mem u
  · simp only [if_neg ha]

theorem step_synced_lookup_ne (ctx : BusyCtx) (acc : BusyAcc) (u x : Uid)
    (h : x ≠ u) :
    alLookup (busyLoopStep ctx acc u).synced x = alLookup acc.synced x := by
  rw [busyLoopStep_eq]
  cases hv : stepSyncedVal ctx u (decide (u ∈ acc.tomb)) with
  | some ts =>
      simp only [hv]
      exact alLookup_insert_ne _ _ _ _ h
  | none => simp only [hv]

theorem loop_tomb_subset (ctx : BusyCtx) :
    ∀ (uids : List Uid) (acc : BusyAcc) (x : Uid),
      x ∈ (uids.foldl (busyLoopStep ctx) acc).tomb → x ∈ acc.tomb := by
  intro uids
  induction uids with
  | nil => intro acc x h; exact h
  | cons u rest ih =>
      intro acc x h
      rw [List.foldl_cons] at h
      exact step_tomb_subset ctx acc u x (ih _ x h)

theorem loop_tomb_not_mem_uids (ctx : BusyCtx) :
    ∀ (uids : List Uid) (acc : BusyAcc) (x : Uid), x ∉ uids →
      (x ∈ (uids.foldl (busyLoopStep ctx) acc).tomb ↔ x ∈ acc.tomb) := by
  intro uids
  induction uids with
  | nil => intro acc x _; exact Iff.rfl
  | cons u rest ih =>
      intro acc x hx
      rw [List.foldl_cons]
      have hxu : x ≠ u := fun h => hx (h ▸ List.mem_cons_self _ _)
      have hxr : x ∉ rest := fun h => hx (List.mem_cons_of_mem _ h)
      rw [ih _ x hxr]
      exact step_tomb_mem_ne ctx acc u x hxu

theorem loop_tomb_no_discard (ctx : BusyCtx) :
    ∀ (uids : List Uid) (acc : BusyAcc) (x : Uid),
      stepDiscards ctx x = false → x ∈ acc.tomb →
      x ∈ (uids.foldl (busyLoopStep ctx) acc).tomb := by
  intro uids
  induction uids with
  | nil => intro acc x _ h; exact h
  | cons u rest ih =>
      intro acc x hd h
      rw [List.foldl_cons]
      apply ih _ x hd
      by_cases hxu : x = u
      · subst hxu
        rw [busyLoopStep_eq]
        simp only [hd, if_false]
        exact h
      · exact (step_tomb_mem_ne ctx acc u x hxu).mpr h

theorem loop_ops_mono (ctx : BusyCtx) :
    ∀ (uids : List Uid) (acc : BusyAcc) (op : Op),
      op ∈ acc.ops → op ∈ (uids.foldl (busyLoopStep ctx) acc).ops := by
  intro uids
  induction uids with
  | nil => intro acc op h; exact h
  | cons u rest ih =>
      intro acc op h
      rw [List.foldl_cons]
      apply ih
      rw [busyLoopStep_eq]
      exact List.mem_append.mpr (Or.inl h)

theorem loop_ops_origin (ctx : BusyCtx) :
    ∀ (uids : List Uid) (acc : BusyAcc) (op : Op), uids.Nodup →
      op ∈ (uids.foldl (busyLoopStep ctx) acc).ops →
      op ∈ acc.ops ∨
        ∃ u ∈ uids, op ∈ stepOps ctx u (decide (u ∈ acc.tomb)) := by
  intro uids
  induction uids with
  | nil => intro acc op _ h; exact Or.inl h
  | cons u rest ih =>
      intro acc op hnd h
      rw [List.foldl_cons] at h
      have hnd' := hnd
      rw [List.nodup_cons] at hnd'
      rcases ih _ op hnd'.2 h with h' | h'
      · rw [busyLoopStep_eq] at h'
        rcases List.mem_append.mp h' with h'' | h''
        · exact Or.inl h''
        · exact Or.inr ⟨u, List.mem_cons_self _ _, h''⟩
      · obtain ⟨v, hv, hop⟩ := h'
        have hvu : v ≠ u := fun hh => hnd'.1 (hh ▸ hv)
        have hbd : (decide (v ∈ (busyLoopStep ctx acc u).tomb)) =
            (decide (v ∈ acc.tomb)) :=
          decide_eq_decide.mpr (step_tomb_mem_ne ctx acc u v hvu)
        rw [hbd] at hop
        exact Or.inr ⟨v, List.mem_cons_of_mem _ hv, hop⟩

theorem loop_busy_origin (ctx : BusyCtx) :
    ∀ (uids : List Uid) (acc : BusyAcc) (x : Uid), uids.Nodup →
      x ∈ (uids.foldl (busyLoopStep ctx) acc).busy →
      x ∈ acc.busy ∨
        (x ∈ uids ∧ stepAddsBusy ctx x (decide (x ∈ acc.tomb)) = true) := by
  intro uids
  induction uids with
  | nil => intro acc x _ h; exact Or.inl h
  | cons u rest ih =>
      intro acc x hnd h
      rw [List.foldl_cons] at h
      have hnd' := hnd
      rw [List.nodup_cons] at hnd'
      rcases ih _ x hnd'.2 h with h' | h'
      · rw [busyLoopStep_eq] at h'
        by_cases ha : stepAddsBusy ctx u (decide (u ∈ acc.tomb))
        · simp only [if_pos ha] at h'
          rcases mem_setAdd.mp h' with h'' | h''
          · exact Or.inl h''
          · subst h''
            exact Or.inr ⟨List.mem_cons_self _ _, ha⟩
        · simp only [if_neg ha] at h'
          exact Or.inl h'
      · obtain ⟨hv, hop⟩ := h'
        have hvu : x ≠ u := fun hh => hnd'.1 (hh ▸ hv)
        have hb : (decide (x ∈ (busyLoopStep ctx acc u).tomb)) =
            (decide (x ∈ acc.tomb)) :=
          decide_eq_decide.mpr (step_tomb_mem_ne ctx acc u x hvu)
        rw [hb] at hop
        exact Or.inr ⟨List.mem_cons_of_mem _ hv, hop⟩

theorem loop_busy_mono (ctx : BusyCtx) :
    ∀ (uids : List Uid) (acc : BusyAcc) (x : Uid),
      x ∈ acc.busy → x ∈ (uids.foldl (busyLoopStep ctx) acc).busy := by
  intro uids
  induction uids with
  | nil => intro acc x h; exact h
  | cons u rest ih =>
      intro acc x h
      rw [List.foldl_cons]
      apply ih
      rw [busyLoopStep_eq]
      by_cases ha : stepAddsBusy ctx u (decide (u ∈ acc.tomb))
      · simp only [if_pos ha]
        exact mem_setAdd_of_mem _ h
      · simpa [ha] using h

theorem loop_busy_added (ctx : BusyCtx) :
    ∀ (uids : List Uid) (acc : BusyAcc) (x : Uid), x ∈ uids →
      stepAddsBusy ctx x (decide (x ∈ acc.tomb)) = true →
      x ∈ (uids.foldl (busyLoopStep ctx) acc).busy := by
  intro uids
  induction uids with
  | nil => intro acc x h; exact absurd h (List.not_mem_nil _)
  | cons u rest ih =>
      intro acc x hmem ha
      rw [List.foldl_cons]
      by_cases hxu : x = u
      · subst hxu
        apply loop_busy_mono
        rw [busyLoopStep_eq]
        simp only [if_pos ha]
        exact mem_setAdd_self _ _
      · have hrest : x ∈ rest := by
          rcases List.mem_cons.mp hmem with h' | h'
          · exact absurd h' hxu
          · exact h'
        have hb : (decide (x ∈ (busyLoopStep ctx acc u).tomb)) =
            (decide (x ∈ acc.tomb)) :=
          decide_eq_decide.mpr (step_tomb_mem_ne ctx acc u x hxu)
        exact ih _ x hrest (hb ▸ ha)

theorem loop_tomb_final (ctx : BusyCtx) :
    ∀ (uids : List Uid) (acc : BusyAcc) (x : Uid), uids.Nodup →
      x ∈ acc.tomb → x ∉ (uids.foldl (busyLoopStep ctx) acc).tomb →
      x ∈ uids ∧ stepDiscards ctx x = true := by
  intro uids
  induction uids with
  | nil => intro acc x _ hin hout; exact absurd hin hout
  | cons u rest ih =>
      intro acc x hnd hin hout
      rw [List.foldl_cons] at hout
      have hnd' := hnd
      rw [List.nodup_cons] at hnd'
      by_cases hxu : x = u
      · subst hxu
        cases hd : stepDiscards ctx x with
        | true => exact ⟨List.mem_cons_self _ _, rfl⟩
        | false =>
            exfalso
            apply hout
            rw [(loop_tomb_not_mem_uids ctx rest _ x hnd'.1)]
            rw [busyLoopStep_eq]
            simp only [hd, if_false]
            exact hin
      · have hin' : x ∈ (busyLoopStep ctx acc u).tomb :=
          (step_tomb_mem_ne ctx acc u x hxu).mpr hin
        obtain ⟨hmem, hd⟩ := ih _ x hnd'.2 hin' hout
        exact ⟨List.mem_cons_of_mem _ hmem, hd⟩

theorem loop_synced_lookup_not_mem (ctx : BusyCtx) :
    ∀ (uids : List Uid) (acc : BusyAcc) (x : Uid), x ∉ uids →
      alLookup (uids.foldl (busyLoopStep ctx) acc).synced x =
        alLookup acc.synced x := by
  intro uids
  induction uids with
  | nil => intro acc x _; rfl
  | cons u rest ih =>
      intro acc x hx
      rw [List.foldl_cons]
      have hxu : x ≠ u := fun h => hx (h ▸ List.mem_cons_self _ _)
      have hxr : x ∉ rest := fun h => hx (List.mem_cons_of_mem _ h)
      rw [ih _ x hxr]
      exact step_synced_lookup_ne ctx acc u x hxu

theorem loop_synced_lookup_mem (ctx : BusyCtx) :
    ∀ (uids : List Uid) (acc : BusyAcc) (x : Uid), uids.Nodup → x ∈ uids →
      alLookup (uids.foldl (busyLoopStep ctx) acc).synced x =
        (match stepSyncedVal ctx x (decide (x ∈ acc.tomb)) with
         | some ts => some ts
         | none => alLookup acc.synced x) := by
  intro uids
  induction uids with
  | nil => intro acc x _ h; exact absurd h (List.not_mem_nil _)
  | cons u rest ih =>
      intro acc x hnd hmem
      rw [List.foldl_cons]
      have hnd' := hnd
      rw [List.nodup_cons] at hnd'
      by_cases hxu : x = u
      · subst hxu
        have hxr : x ∉ rest := hnd'.1
        rw [loop_synced_lookup_not_mem ctx rest _ x hxr]
        rw [busyLoopStep_eq]
        cases hv : stepSyncedVal ctx x (decide (x ∈ acc.tomb)) with
        | some ts =>
            simp only [hv]
            exact alLookup_insert_self _ _ _
        | none => simp only [hv]
      · have hrest : x ∈ rest := by
          rcases List.mem_cons.mp hmem with h' | h'
          · exact absurd h' hxu
          · exact h'
        rw [ih _ x hnd'.2 hrest]
        have hb : (decide (x ∈ (busyLoopStep ctx acc u).tomb)) =
            (decide (x ∈ acc.tomb)) :=
          decide_eq_decide.mpr (step_tomb_mem_ne ctx acc u x hxu)
        rw [hb, step_synced_lookup_ne ctx acc u x hxu]

theorem popPass_delete_emitted :
    ∀ (l : List Uid) (acc : BusySrcMeta × List Op × List Uid) (u : Uid)
      (e : Event) (t : Ts), u ∈ l → alLookup acc.1 u = some (e, t) →
      Op.deleteSrc e ∈ (l.foldl popStep acc).2.1 := by
  intro l
  induction l with
  | nil => intro acc u e t h; exact absurd h (List.not_mem_nil _)
  | cons v rest ih =>
      intro acc u e t hmem hl
      rw [List.foldl_cons]
      by_cases hv : v = u
      · subst hv
        apply popPass_ops_mono
        simp only [popStep, hl]
        exact List.mem_append.mpr (Or.inr (List.mem_singleton.mpr rfl))
      · have hrest : u ∈ rest := by
          rcases List.mem_cons.mp hmem with h' | h'
          · exact absurd h'.symm hv
          · exact h'
        have hpres : alLookup (popStep acc v).1 u = some (e, t) := by
          cases hlv : alLookup acc.1 v with
          | some p =>
              obtain ⟨e', t'⟩ := p
              simp only [popStep, hlv]
              rw [alLookup_erase_ne _ _ _ (fun hh => hv hh.symm)]
              exact hl
          | none => simpa [popStep, hlv] using hl
        exact ih _ u e t hrest hpres

theorem busyPasses_tomb_mem (prev : BusyState) (srcMeta : BusySrcMeta)
    (tgtParsed : TgtParsed) (x : Uid) :
    x ∈ (busyPasses prev srcMeta tgtParsed).2.2 ↔
      x ∈ prev.tombstones ∨
      (x ∈ prev.realUids ∧ x ∉ alKeys srcMeta) ∨
      (x ∈ prev.realUids ∧ x ∉ (buildTgtMaps tgtParsed).2.2) ∨
      (x ∈ prev.busyUids ∧ x ∉ alKeys (buildTgtMaps tgtParsed).2.1) := by
  unfold busyPasses busyPass2 popPass busyPass1
  rw [popPass_tomb_mem, popPass_tomb_mem, pass1_tomb_mem]
  simp only [List.mem_filter, decide_eq_true_eq]
  tauto

theorem busyPasses_src_lookup (prev : BusyState) (srcMeta : BusySrcMeta)
    (tgtParsed : TgtParsed) (u : Uid) :
    alLookup (busyPasses prev srcMeta tgtParsed).1 u =
      if (u ∈ prev.realUids ∧ u ∉ (buildTgtMaps tgtParsed).2.2) ∨
         (u ∈ prev.busyUids ∧ u ∉ alKeys (buildTgtMaps tgtParsed).2.1) then none
      else alLookup srcMeta u := by
  unfold busyPasses busyPass2 popPass
  rw [popPass_lookup, popPass_lookup]
  simp only [List.mem_filter, decide_eq_true_eq]
  by_cases h3 : u ∈ prev.busyUids ∧ u ∉ alKeys (buildTgtMaps tgtParsed).2.1
  · simp [h3]
  · by_cases h2 : u ∈ prev.realUids ∧ u ∉ (buildTgtMaps tgtParsed).2.2
    · simp [h2, h3]
    · simp [h2, h3]

theorem busyPasses_ops_origin (prev : BusyState) (srcMeta : BusySrcMeta)
    (tgtParsed : TgtParsed) (op : Op)
    (h : op ∈ (busyPasses prev srcMeta tgtParsed).2.1) :
    (∃ u e t, u ∈ prev.realUids ∧ u ∉ alKeys srcMeta ∧
       alLookup (buildTgtMaps tgtParsed).1 u = some (e, t) ∧
       op = Op.deleteTgt e) ∨
    (∃ e, op = Op.deleteSrc e) := by
  unfold busyPasses busyPass2 popPass busyPass1 at h
  rcases popPass_ops_origin _ _ _ h with h' | h'
  · rcases popPass_ops_origin _ _ _ h' with h'' | h''
    · rcases pass1_ops_origin _ _ _ _ h'' with h3 | h3
      · exact absurd h3 (List.not_mem_nil _)
      · obtain ⟨u, hu, e, t, hl, hop⟩ := h3
        rw [List.mem_filter] at hu
        exact Or.inl ⟨u, e, t, hu.1, by simpa using hu.2, hl, hop⟩
    · exact Or.inr h''
  · exact Or.inr h'

theorem busyUidsOf_nodup (prev : BusyState) (srcMeta : BusySrcMeta)
    (tgtParsed : TgtParsed) : (busyUidsOf prev srcMeta tgtParsed).Nodup :=
  sortUids_nodup (List.nodup_dedup _)

theorem mem_busyUidsOf (prev : BusyState) (srcMeta : BusySrcMeta)
    (tgtParsed : TgtParsed) (u : Uid) :
    u ∈ busyUidsOf prev srcMeta tgtParsed ↔
      u ∈ alKeys prev.synced ∨
      u ∈ alKeys (busyPasses prev srcMeta tgtParsed).1 ∨
      u ∈ alKeys (buildTgtMaps tgtParsed).2.1 := by
  unfold busyUidsOf
  rw [mem_sortUids, List.mem_dedup]
  simp [List.mem_append, or_assoc]

theorem busyReconcile_ops_origin (prev : BusyState) (srcMeta : BusySrcMeta)
    (tgtParsed : TgtParsed) (now : Ts) (pf : Uid → Bool) (op : Op)
    (h : op ∈ (busyReconcile prev srcMeta tgtParsed now pf).1) :
    op ∈ (busyPasses prev srcMeta tgtParsed).2.1 ∨
    ∃ u ∈ busyUidsOf prev srcMeta tgtParsed,
      op ∈ stepOps (busyCtxOf prev srcMeta tgtParsed now pf) u
        (decide (u ∈ (busyPasses prev srcMeta tgtParsed).2.2)) := by
  rw [busyReconcile] at h
  rcases loop_ops_origin _ _ _ op
      (busyUidsOf_nodup prev srcMeta tgtParsed) h with h' | h'
  · exact Or.inl h'
  · exact Or.inr h'

/-- Shapes of the operations one step-7 iteration can emit. -/
theorem stepOps_shapes (ctx : BusyCtx) (u : Uid) (b : Bool) (op : Op)
    (h : op ∈ stepOps ctx u b) :
    u ∉ ctx.realUids ∧
    ((∃ e t, op = Op.deleteTgt e ∧ alLookup ctx.busyMeta u = some (e, t)) ∨
     (∃ e t d1 d2, op = Op.updateTgt e (buildBusyIcal u d1 d2 ctx.now) ∧
        alLookup ctx.busyMeta u = some (e, t)) ∨
     (∃ tcol d1 d2, op = Op.updateTgt tcol.1 (buildBusyIcal u d1 d2 ctx.now) ∧
        ctx.tgtParsed.find? (fun t => t.2.1 == u) = some tcol ∧
        alLookup ctx.busyMeta u = none ∧ b = false ∧ ctx.putFails u = true) ∨
     (∃ d1 d2, op = Op.createTgt (buildBusyIcal u d1 d2 ctx.now) ∧ b = false ∧
        alLookup ctx.busyMeta u = none ∧ ctx.putFails u = false) ∨
     (∃ e r, op = Op.updateSrc e r)) := by
  by_cases h1 : u ∈ ctx.realUids
  · rw [stepOps, if_pos h1] at h
    exact absurd h (List.not_mem_nil _)
  · refine ⟨h1, ?_⟩
    rw [stepOps, if_neg h1] at h
    cases hS : alLookup ctx.srcMeta u with
    | some vS =>
        obtain ⟨eS, lmS⟩ := vS
        cases hB : alLookup ctx.busyMeta u with
        | none =>
            simp only [hS, hB] at h
            by_cases hbt : b = true
            · rw [if_pos hbt] at h
              exact absurd h (List.not_mem_nil _)
            · have hbf : b = false := by
                cases b
                · rfl
                · exact absurd rfl hbt
              rw [if_neg hbt] at h
              by_cases hp : ctx.putFails u
              · rw [if_pos hp] at h
                cases hf : ctx.tgtParsed.find? (fun t => t.2.1 == u) with
                | some tcol =>
                    rw [hf] at h
                    rw [List.mem_singleton] at h
                    exact Or.inr (Or.inr (Or.inl
                      ⟨tcol, (dtRangeOf eS.raw).1, (dtRangeOf eS.raw).2,
                        h, rfl, rfl, hbf, hp⟩))
                | none =>
                    rw [hf] at h
                    exact absurd h (List.not_mem_nil _)
              · have hpf : ctx.putFails u = false := by
                  cases hpc : ctx.putFails u
                  · rfl
                  · exact absurd hpc hp
                rw [if_neg hp, List.mem_singleton] at h
                exact Or.inr (Or.inr (Or.inr (Or.inl
                  ⟨(dtRangeOf eS.raw).1, (dtRangeOf eS.raw).2, h, hbf, rfl,
                    hpf⟩)))
        | some vB =>
            obtain ⟨eT, lmT⟩ := vB
            simp only [hS, hB] at h
            by_cases hgt : lmS > lmT
            · rw [if_pos hgt, List.mem_singleton] at h
              exact Or.inr (Or.inl
                ⟨eT, lmT, (dtRangeOf eS.raw).1, (dtRangeOf eS.raw).2, h, rfl⟩)
            · rw [if_neg hgt] at h
              by_cases hlt : lmT > lmS
              · rw [if_pos hlt, List.mem_singleton] at h
                exact Or.inr (Or.inr (Or.inr (Or.inr ⟨eS, _, h⟩)))
              · rw [if_neg hlt] at h
                exact absurd h (List.not_mem_nil _)
    | none =>
        cases hB : alLookup ctx.busyMeta u with
        | none =>
            simp only [hS, hB] at h
            exact absurd h (List.not_mem_nil _)
        | some vB =>
            obtain ⟨eT, lmT⟩ := vB
            simp only [hS, hB] at h
            cases hO : alLookup ctx.oldSynced u with
            | some vO =>
                simp only [hO, List.mem_singleton] at h
                exact Or.inl ⟨eT, lmT, h, rfl⟩
            | none =>
                simp only [hO] at h
                exact absurd h (List.not_mem_nil _)

theorem buildTgtMaps_real_lookup {tp : TgtParsed} {u : Uid} {e : Event}
    {t : Ts} (h : alLookup (buildTgtMaps tp).1 u = some (e, t)) :
    (e, u, t) ∈ tp ∧ getSummary e.raw ≠ "Busy" := by
  rw [buildTgtMaps] at h
  rcases buildTgt_real_lookup tp ([], [], []) u e t h with h' | h'
  · exact absurd h' (by simp)
  · exact h'

theorem buildTgtMaps_busy_lookup {tp : TgtParsed} {u : Uid} {e : Event}
    {t : Ts} (h : alLookup (buildTgtMaps tp).2.1 u = some (e, t)) :
    (e, u, t) ∈ tp ∧ getSummary e.raw = "Busy" := by
  rw [buildTgtMaps] at h
  rcases buildTgt_busy_lookup tp ([], [], []) u e t h with h' | h'
  · exact absurd h' (by simp)
  · exact h'

theorem buildTgtMaps_realUids_origin {tp : TgtParsed} {u : Uid}
    (h : u ∈ (buildTgtMaps tp).2.2) :
    ∃ e t, (e, u, t) ∈ tp ∧ getSummary e.raw ≠ "Busy" := by
  rw [buildTgtMaps] at h
  rcases buildTgt_realUids_origin tp ([], [], []) u h with h' | h'
  · exact absurd h' (by simp)
  · exact h'

theorem buildTgtMaps_realUids_of_entry {tp : TgtParsed} {u : Uid} {e : Event}
    {t : Ts} (hmem : (e, u, t) ∈ tp) (hs : getSummary e.raw ≠ "Busy") :
    u ∈ (buildTgtMaps tp).2.2 := by
  rw [buildTgtMaps]
  exact buildTgt_realUids_of_entry tp ([], [], []) u e t hmem hs

/-- C1 counterexample: a BUSY run that deletes a real (SUMMARY = "Meeting")
event from the target.  Previous state: `real_uids = {"u"}`; current source
view: empty; current target view: the real event "u".  The "NEW BLOCK"
(lines 212–220 of `sync_caldav_busy`) issues `delete_event` against B for it. -/
theorem busy_deletes_real_event_counterexample :
    Op.deleteTgt ⟨"b1", Raw.vevent "u" (some 10) none "Meeting" 1 2⟩ ∈
      (busyReconcile ⟨[], [], [], ["u"]⟩ []
        [(⟨"b1", Raw.vevent "u" (some 10) none "Meeting" 1 2⟩, "u", 10)]
        0 (fun _ => false)).1 ∧
    getSummary (Raw.vevent "u" (some 10) none "Meeting" 1 2) ≠ "Busy" := by
  decide

/-- C1 amended: in every BUSY-mode reconciliation, every `update_event`
issued against the target concerns an event whose SUMMARY is "Busy", and
every `delete_event` issued against the target concerns either an event whose
SUMMARY is "Busy", or — in the pass that propagates source-side deletions of
real events (lines 212–220) — a real event whose uid was recorded in the
previous run's `real_uids` and is absent from the current source keys. -/
theorem busy_target_mutation_protection
    (prev : BusyState) (srcMeta : BusySrcMeta) (tgtParsed : TgtParsed)
    (now : Ts) (pf : Uid → Bool) :
    (∀ e r, Op.updateTgt e r ∈ (busyReconcile prev srcMeta tgtParsed now pf).1 →
        getSummary e.raw = "Busy") ∧
    (∀ e, Op.deleteTgt e ∈ (busyReconcile prev srcMeta tgtParsed now pf).1 →
        getSummary e.raw = "Busy" ∨
        ∃ u t, (e, u, t) ∈ tgtParsed ∧ getSummary e.raw ≠ "Busy" ∧
          u ∈ prev.realUids ∧ u ∉ alKeys srcMeta) := by
  constructor
  · intro e r hmem
    rcases busyReconcile_ops_origin prev srcMeta tgtParsed now pf _ hmem
      with h | ⟨u, _, hstep⟩
    · rcases busyPasses_ops_origin prev srcMeta tgtParsed _ h with
        ⟨u, e', t, _, _, _, hop⟩ | ⟨e', hop⟩
      · exact absurd hop (by simp)
      · exact absurd hop (by simp)
    · obtain ⟨hreal, hshape⟩ := stepOps_shapes _ u _ _ hstep
      rcases hshape with ⟨e', t, hop, _⟩ | ⟨e', t, d1, d2, hop, hB⟩ |
        ⟨tcol, d1, d2, hop, hf, hB, _, _⟩ | ⟨d1, d2, hop, _⟩ | ⟨e', r', hop⟩
      · exact absurd hop (by simp)
      · have hee : e = e' := by injection hop
        subst hee
        exact (buildTgtMaps_busy_lookup hB).2
      · have hee : e = tcol.1 := by injection hop
        subst hee
        by_cases hs : getSummary tcol.1.raw = "Busy"
        · exact hs
        · exfalso
          have htp : tcol ∈ tgtParsed := List.mem_of_find?_eq_some hf
          have hbeq := List.find?_some hf
          have huu : tcol.2.1 = u := by simpa using hbeq
          apply hreal
          have : (tcol.1, u, tcol.2.2) ∈ tgtParsed := by
            rw [← huu]
            exact htp
          exact buildTgtMaps_realUids_of_entry this hs
      · exact absurd hop (by simp)
      · exact absurd hop (by simp)
  · intro e hmem
    rcases busyReconcile_ops_origin prev srcMeta tgtParsed now pf _ hmem
      with h | ⟨u, _, hstep⟩
    · rcases busyPasses_ops_origin prev srcMeta tgtParsed _ h with
        ⟨u, e', t, hu1, hu2, hl, hop⟩ | ⟨e', hop⟩
      · have hee : e = e' := by injection hop
        subst hee
        obtain ⟨htp, hs⟩ := buildTgtMaps_real_lookup hl
        exact Or.inr ⟨u, t, htp, hs, hu1, hu2⟩
      · exact absurd hop (by simp)
    · obtain ⟨hreal, hshape⟩ := stepOps_shapes _ u _ _ hstep
      rcases hshape with ⟨e', t, hop, hB⟩ | ⟨e', t, d1, d2, hop, _⟩ |
        ⟨tcol, d1, d2, hop, _, _, _, _⟩ | ⟨d1, d2, hop, _⟩ | ⟨e', r', hop⟩
      · have hee : e = e' := by injection hop
        subst hee
        exact Or.inl (buildTgtMaps_busy_lookup hB).2
      · exact absurd hop (by simp)
      · exact absurd hop (by simp)
      · exact absurd hop (by simp)
      · exact absurd hop (by simp)

/-- Witness for the amended C1 theorem at the counterexample input. -/
theorem busy_target_mutation_protection_witness :
    getSummary (Raw.vevent "u" (some 10) none "Meeting" 1 2) = "Busy" ∨
      ∃ u t,
        ((⟨"b1", Raw.vevent "u" (some 10) none "Meeting" 1 2⟩ : Event), u, t) ∈
          ([(⟨"b1", Raw.vevent "u" (some 10) none "Meeting" 1 2⟩, "u", 10)] :
            TgtParsed) ∧
        getSummary (Raw.vevent "u" (some 10) none "Meeting" 1 2) ≠ "Busy" ∧
        u ∈ (["u"] : List Uid) ∧ u ∉ alKeys ([] : BusySrcMeta) :=
  (busy_target_mutation_protection ⟨[], [], [], ["u"]⟩ []
    [(⟨"b1", Raw.vevent "u" (some 10) none "Meeting" 1 2⟩, "u", 10)]
    0 (fun _ => false)).2
    ⟨"b1", Raw.vevent "u" (some 10) none "Meeting" 1 2⟩ (by decide)

theorem busyReconcile_ops_eq (prev : BusyState) (srcMeta : BusySrcMeta)
    (tgtParsed : TgtParsed) (now : Ts) (pf : Uid → Bool) :
    (busyReconcile prev srcMeta tgtParsed now pf).1 =
      ((busyUidsOf prev srcMeta tgtParsed).foldl
        (busyLoopStep (busyCtxOf prev srcMeta tgtParsed now pf))
        (busyAcc0Of prev srcMeta tgtParsed)).ops := rfl

theorem busyReconcile_tomb_eq (prev : BusyState) (srcMeta : BusySrcMeta)
    (tgtParsed : TgtParsed) (now : Ts) (pf : Uid → Bool) :
    (busyReconcile prev srcMeta tgtParsed now pf).2.tombstones =
      ((busyUidsOf prev srcMeta tgtParsed).foldl
        (busyLoopStep (busyCtxOf prev srcMeta tgtParsed now pf))
        (busyAcc0Of prev srcMeta tgtParsed)).tomb := rfl

theorem busyReconcile_busy_eq (prev : BusyState) (srcMeta : BusySrcMeta)
    (tgtParsed : TgtParsed) (now : Ts) (pf : Uid → Bool) :
    (busyReconcile prev srcMeta tgtParsed now pf).2.busyUids =
      ((busyUidsOf prev srcMeta tgtParsed).foldl
        (busyLoopStep (busyCtxOf prev srcMeta tgtParsed now pf))
        (busyAcc0Of prev srcMeta tgtParsed)).busy := rfl

theorem busyReconcile_synced_eq (prev : BusyState) (srcMeta : BusySrcMeta)
    (tgtParsed : TgtParsed) (now : Ts) (pf : Uid → Bool) :
    (busyReconcile prev srcMeta tgtParsed now pf).2.synced =
      ((busyUidsOf prev srcMeta tgtParsed).foldl
        (busyLoopStep (busyCtxOf prev srcMeta tgtParsed now pf))
        (busyAcc0Of prev srcMeta tgtParsed)).synced := rfl

theorem stepDiscards_of_busy_none {ctx : BusyCtx} {u : Uid}
    (h : alLookup ctx.busyMeta u = none) : stepDiscards ctx u = false := by
  rw [stepDiscards]
  by_cases h1 : u ∈ ctx.realUids
  · rw [if_pos h1]
  · rw [if_neg h1]
    cases hO : alLookup ctx.oldSynced u <;>
      cases hS : alLookup ctx.srcMeta u <;> simp [hO, hS, h]

theorem stepDiscards_src_none {ctx : BusyCtx} {u : Uid}
    (h : stepDiscards ctx u = true) : alLookup ctx.srcMeta u = none := by
  rw [stepDiscards] at h
  by_cases h1 : u ∈ ctx.realUids
  · rw [if_pos h1] at h
    exact absurd h (by simp)
  · rw [if_neg h1] at h
    cases hS : alLookup ctx.srcMeta u with
    | none => rfl
    | some vS =>
        exfalso
        cases hO : alLookup ctx.oldSynced u <;>
          cases hB : alLookup ctx.busyMeta u <;>
            simp [hO, hS, hB] at h

theorem uidOfRaw_buildBusyIcal (u : Uid) (d1 d2 n : Ts) :
    uidOfRaw (buildBusyIcal u d1 d2 n) = u := rfl

/-- C3: BUSY-mode tombstone resurrection-resistance.
(1) If the previous run recorded uid U in `busy_uids`, the current target
view holds no Busy event with uid U, and U is still present in the source
metadata, then the run deletes U's source event and U is in the persisted
tombstones.
(2) While U is tombstoned, no run issues `create_event` for a Busy
placeholder carrying uid U.
(3) A run can remove U from the tombstones only when U is absent from its
source view or the run itself deleted U's source event — so recreation
requires U to leave the source and reappear later. -/
theorem busy_tombstone_resurrection_resistance
    (prev : BusyState) (srcMeta : BusySrcMeta) (tgtParsed : TgtParsed)
    (now : Ts) (pf : Uid → Bool) (U : Uid) :
    (U ∈ prev.busyUids → U ∉ alKeys (buildTgtMaps tgtParsed).2.1 →
      ∀ e t, alLookup srcMeta U = some (e, t) →
        Op.deleteSrc e ∈ (busyReconcile prev srcMeta tgtParsed now pf).1 ∧
        U ∈ (busyReconcile prev srcMeta tgtParsed now pf).2.tombstones) ∧
    (U ∈ prev.tombstones →
      ∀ r, Op.createTgt r ∈ (busyReconcile prev srcMeta tgtParsed now pf).1 →
        uidOfRaw r ≠ U) ∧
    (U ∈ prev.tombstones →
      U ∉ (busyReconcile prev srcMeta tgtParsed now pf).2.tombstones →
      alLookup srcMeta U = none ∨
        ∃ e t, alLookup srcMeta U = some (e, t) ∧
          Op.deleteSrc e ∈ (busyReconcile prev srcMeta tgtParsed now pf).1) := by
  have hl3 : ∀ x, x ∈ prev.busyUids → x ∉ alKeys (buildTgtMaps tgtParsed).2.1 →
      x ∈ prev.busyUids.filter
        (fun u => decide (u ∉ alKeys (buildTgtMaps tgtParsed).2.1)) := by
    intro x h1 h2
    rw [List.mem_filter]
    exact ⟨h1, by simpa using h2⟩
  have hdel : ∀ x e t, alLookup srcMeta x = some (e, t) →
      ((x ∈ prev.realUids.filter
          (fun u => decide (u ∉ (buildTgtMaps tgtParsed).2.2))) ∨
       (x ∈ prev.busyUids.filter
          (fun u => decide (u ∉ alKeys (buildTgtMaps tgtParsed).2.1)))) →
      Op.deleteSrc e ∈ (busyReconcile prev srcMeta tgtParsed now pf).1 := by
    intro x e t hlook hcase
    rw [busyReconcile_ops_eq]
    apply loop_ops_mono
    show Op.deleteSrc e ∈ (busyPasses prev srcMeta tgtParsed).2.1
    by_cases h2 : x ∈ prev.realUids.filter
        (fun u => decide (u ∉ (buildTgtMaps tgtParsed).2.2))
    · have hin2 : Op.deleteSrc e ∈ (busyPass2 prev srcMeta tgtParsed).2.1 := by
        unfold busyPass2 popPass
        exact popPass_delete_emitted _ _ x e t h2 hlook
      unfold busyPasses popPass
      exact popPass_ops_mono _ _ _ hin2
    · rcases hcase with hc | hc
      · exact absurd hc h2
      · have hlook2 : alLookup (busyPass2 prev srcMeta tgtParsed).1 x =
            some (e, t) := by
          unfold busyPass2 popPass
          rw [popPass_lookup]
          rw [if_neg ?hne]
          · exact hlook
          case hne => exact h2
        unfold busyPasses popPass
        exact popPass_delete_emitted _ _ x e t hc hlook2
  refine ⟨?_, ?_, ?_⟩
  · intro hbusy hnotb e t hlook
    have hU3 := hl3 U hbusy hnotb
    constructor
    · exact hdel U e t hlook (Or.inr hU3)
    · rw [busyReconcile_tomb_eq]
      have hacc0 : U ∈ (busyAcc0Of prev srcMeta tgtParsed).tomb := by
        show U ∈ (busyPasses prev srcMeta tgtParsed).2.2
        rw [busyPasses_tomb_mem]
        exact Or.inr (Or.inr (Or.inr ⟨hbusy, hnotb⟩))
      apply loop_tomb_no_discard
      · apply stepDiscards_of_busy_none
        show alLookup (buildTgtMaps tgtParsed).2.1 U = none
        exact alLookup_eq_none_of_not_mem_keys hnotb
      · exact hacc0
  · intro htomb r hmem hur
    rcases busyReconcile_ops_origin prev srcMeta tgtParsed now pf _ hmem
      with h | ⟨u, _, hstep⟩
    · rcases busyPasses_ops_origin prev srcMeta tgtParsed _ h with
        ⟨_, _, _, _, _, _, hop⟩ | ⟨_, hop⟩ <;> exact absurd hop (by simp)
    · obtain ⟨_, hshape⟩ := stepOps_shapes _ u _ _ hstep
      rcases hshape with ⟨_, _, hop, _⟩ | ⟨_, _, _, _, hop, _⟩ |
        ⟨_, _, _, hop, _, _, _, _⟩ | ⟨d1, d2, hop, hb, _, _⟩ | ⟨_, _, hop⟩
      · exact absurd hop (by simp)
      · exact absurd hop (by simp)
      · exact absurd hop (by simp)
      · have hr : r = buildBusyIcal u d1 d2
            (busyCtxOf prev srcMeta tgtParsed now pf).now := by
          injection hop
        have hru : uidOfRaw r = u := by
          rw [hr, uidOfRaw_buildBusyIcal]
        have huU : u = U := by rw [← hru, hur]
        subst huU
        have hmemtomb : u ∈ (busyPasses prev srcMeta tgtParsed).2.2 := by
          rw [busyPasses_tomb_mem]
          exact Or.inl htomb
        simp [hmemtomb] at hb
      · exact absurd hop (by simp)
  · intro htomb hnot
    have hacc0 : U ∈ (busyAcc0Of prev srcMeta tgtParsed).tomb := by
      show U ∈ (busyPasses prev srcMeta tgtParsed).2.2
      rw [busyPasses_tomb_mem]
      exact Or.inl htomb
    rw [busyReconcile_tomb_eq] at hnot
    obtain ⟨hmem, hdisc⟩ := loop_tomb_final _ _ _ U
      (busyUidsOf_nodup prev srcMeta tgtParsed) hacc0 hnot
    have hsrcnone := stepDiscards_src_none hdisc
    have hsrcnone' : alLookup (busyPasses prev srcMeta tgtParsed).1 U = none :=
      hsrcnone
    rw [busyPasses_src_lookup] at hsrcnone'
    cases hlook : alLookup srcMeta U with
    | none => exact Or.inl rfl
    | some p =>
        obtain ⟨e, t⟩ := p
        right
        refine ⟨e, t, rfl, ?_⟩
        rw [hlook] at hsrcnone'
        by_cases hcond : (U ∈ prev.realUids ∧
            U ∉ (buildTgtMaps tgtParsed).2.2) ∨
            (U ∈ prev.busyUids ∧ U ∉ alKeys (buildTgtMaps tgtParsed).2.1)
        · apply hdel U e t hlook
          rcases hcond with ⟨h1, h2⟩ | ⟨h1, h2⟩
          · left
            rw [List.mem_filter]
            exact ⟨h1, by simpa using h2⟩
          · right
            exact hl3 U h1 h2
        · rw [if_neg hcond] at hsrcnone'
          exact absurd hsrcnone' (by simp)

/-- Witness for C3 at the S5 scenario: the user deleted the Busy placeholder
for "u" on the target while "u" is still in the source. -/
theorem busy_tombstone_resurrection_resistance_witness :
    Op.deleteSrc ⟨"a1", Raw.vevent "u" (some 10) none "Lunch" 1 2⟩ ∈
      (busyReconcile ⟨[("u", 10)], ["u"], [], []⟩
        [("u", (⟨"a1", Raw.vevent "u" (some 10) none "Lunch" 1 2⟩, 10))]
        [] 110 (fun _ => false)).1 ∧
    "u" ∈ (busyReconcile ⟨[("u", 10)], ["u"], [], []⟩
        [("u", (⟨"a1", Raw.vevent "u" (some 10) none "Lunch" 1 2⟩, 10))]
        [] 110 (fun _ => false)).2.tombstones :=
  (busy_tombstone_resurrection_resistance ⟨[("u", 10)], ["u"], [], []⟩
    [("u", (⟨"a1", Raw.vevent "u" (some 10) none "Lunch" 1 2⟩, 10))]
    [] 110 (fun _ => false) "u").1 (by decide) (by decide)
    ⟨"a1", Raw.vevent "u" (some 10) none "Lunch" 1 2⟩ 10 (by decide)

theorem stepAddsBusy_true_elim {ctx : BusyCtx} {u : Uid}
    (h : stepAddsBusy ctx u true = true) :
    (alLookup ctx.srcMeta u).isSome ∧ (alLookup ctx.busyMeta u).isSome := by
  rw [stepAddsBusy] at h
  by_cases h1 : u ∈ ctx.realUids
  · rw [if_pos h1] at h
    exact absurd h (by simp)
  · rw [if_neg h1] at h
    cases hS : alLookup ctx.srcMeta u with
    | some vS =>
        cases hB : alLookup ctx.busyMeta u with
        | some vB => simp [hS, hB]
        | none => simp [hS, hB] at h
    | none =>
        exfalso
        cases hO : alLookup ctx.oldSynced u <;>
          cases hB : alLookup ctx.busyMeta u <;> simp [hO, hS, hB] at h

theorem stepSyncedVal_create {ctx : BusyCtx} {u : Uid} {e : Event} {lm : Ts}
    (hreal : u ∉ ctx.realUids) (hS : alLookup ctx.srcMeta u = some (e, lm))
    (hB : alLookup ctx.busyMeta u = none) :
    stepSyncedVal ctx u false = some lm := by
  rw [stepSyncedVal, if_neg hreal]
  cases hO : alLookup ctx.oldSynced u <;> simp [hO, hS, hB]

theorem stepAddsBusy_create {ctx : BusyCtx} {u : Uid} {e : Event} {lm : Ts}
    (hreal : u ∉ ctx.realUids) (hS : alLookup ctx.srcMeta u = some (e, lm))
    (hB : alLookup ctx.busyMeta u = none) :
    stepAddsBusy ctx u false = true := by
  rw [stepAddsBusy, if_neg hreal]
  cases hO : alLookup ctx.oldSynced u <;> simp [hO, hS, hB]

/-- C9 counterexample: a chain of three BUSY runs starting from the empty
(first-run) state.  Run 1 creates the placeholder for "u"; run 2 sees the
placeholder deleted on B and tombstones "u"; run 3 sees "u" recreated in the
source and a Busy event "u" on the target — its persisted state carries "u"
in `busy_uids` and in `tombstones` simultaneously. -/
theorem busy_tombstone_busy_disjointness_counterexample :
    (busyReconcile ⟨[], [], [], []⟩
        [("u", (⟨"a1", Raw.vevent "u" (some 10) none "Lunch" 1 2⟩, 10))]
        [] 100 (fun _ => false)).2 =
      ⟨[("u", 10)], ["u"], [], []⟩ ∧
    (busyReconcile ⟨[("u", 10)], ["u"], [], []⟩
        [("u", (⟨"a1", Raw.vevent "u" (some 10) none "Lunch" 1 2⟩, 10))]
        [] 110 (fun _ => false)).2 =
      ⟨[], [], ["u"], []⟩ ∧
    "u" ∈ (busyReconcile ⟨[], [], ["u"], []⟩
        [("u", (⟨"a1", Raw.vevent "u" (some 10) none "Lunch" 1 2⟩, 10))]
        [(⟨"b1", Raw.vevent "u" (some 50) none "Busy" 3 4⟩, "u", 50)]
        120 (fun _ => false)).2.busyUids ∧
    "u" ∈ (busyReconcile ⟨[], [], ["u"], []⟩
        [("u", (⟨"a1", Raw.vevent "u" (some 10) none "Lunch" 1 2⟩, 10))]
        [(⟨"b1", Raw.vevent "u" (some 50) none "Busy" 3 4⟩, "u", 50)]
        120 (fun _ => false)).2.tombstones := by
  decide

/-- C9 amended: at the end of every BUSY run, the persisted `tombstones` and
`busy_uids` are disjoint provided no uid tombstoned in the previous state is
simultaneously present in the source view and as a Busy event in the target
view.  (When a tombstoned uid reappears on both sides at once, the both-sides
branch of the loop records it into `busy_uids` without consulting or clearing
the tombstone, so the two sets then intersect.) -/
theorem busy_tombstone_busy_disjointness
    (prev : BusyState) (srcMeta : BusySrcMeta) (tgtParsed : TgtParsed)
    (now : Ts) (pf : Uid → Bool)
    (hsep : ∀ v, v ∈ prev.tombstones →
      ¬ (v ∈ alKeys srcMeta ∧ v ∈ alKeys (buildTgtMaps tgtParsed).2.1)) :
    ∀ u, ¬ (u ∈ (busyReconcile prev srcMeta tgtParsed now pf).2.busyUids ∧
            u ∈ (busyReconcile prev srcMeta tgtParsed now pf).2.tombstones) := by
  rintro u ⟨hbusy, htomb⟩
  rw [busyReconcile_busy_eq] at hbusy
  rw [busyReconcile_tomb_eq] at htomb
  have hT0 : u ∈ (busyPasses prev srcMeta tgtParsed).2.2 :=
    loop_tomb_subset _ _ _ u htomb
  rcases loop_busy_origin _ _ _ u (busyUidsOf_nodup prev srcMeta tgtParsed)
    hbusy with h0 | ⟨hmem, hadd⟩
  · exact absurd h0 (List.not_mem_nil _)
  · have hb : decide (u ∈ (busyAcc0Of prev srcMeta tgtParsed).tomb) = true :=
      decide_eq_true hT0
    rw [hb] at hadd
    obtain ⟨hSrc, hBusy⟩ := stepAddsBusy_true_elim hadd
    have hSrc' : (alLookup (busyPasses prev srcMeta tgtParsed).1 u).isSome :=
      hSrc
    have hcond : ¬ ((u ∈ prev.realUids ∧
        u ∉ (buildTgtMaps tgtParsed).2.2) ∨
        (u ∈ prev.busyUids ∧ u ∉ alKeys (buildTgtMaps tgtParsed).2.1)) := by
      intro hc
      rw [busyPasses_src_lookup, if_pos hc] at hSrc'
      exact absurd hSrc' (by simp)
    rw [busyPasses_src_lookup, if_neg hcond] at hSrc'
    have hkeysrc : u ∈ alKeys srcMeta := mem_keys_of_alLookup_isSome hSrc'
    have hkeybusy : u ∈ alKeys (buildTgtMaps tgtParsed).2.1 :=
      mem_keys_of_alLookup_isSome hBusy
    rcases (busyPasses_tomb_mem prev srcMeta tgtParsed u).mp hT0 with
      h1 | ⟨_, h2b⟩ | h3 | h4
    · exact hsep u h1 ⟨hkeysrc, hkeybusy⟩
    · exact h2b hkeysrc
    · exact hcond (Or.inl h3)
    · exact hcond (Or.inr h4)

/-- Witness for the amended C9 theorem. -/
theorem busy_tombstone_busy_disjointness_witness :
    ¬ ("u" ∈ (busyReconcile ⟨[], [], ["v"], []⟩ [] [] 100
          (fun _ => false)).2.busyUids ∧
       "u" ∈ (busyReconcile ⟨[], [], ["v"], []⟩ [] [] 100
          (fun _ => false)).2.tombstones) :=
  busy_tombstone_busy_disjointness ⟨[], [], ["v"], []⟩ [] [] 100
    (fun _ => false) (by decide) "u"

/-- C10: when `create_event` for a new Busy placeholder raises the
duplicate-UID `PutError` and no fetched target event carries that uid, the
fallback loop issues no backend operation at all, yet the uid is recorded in
the persisted `synced` map and `busy_uids` set. -/
theorem busy_putfail_phantom_record
    (prev : BusyState) (srcMeta : BusySrcMeta) (tgtParsed : TgtParsed)
    (now : Ts) (pf : Uid → Bool) (U : Uid) (e : Event) (lm : Ts)
    (hpf : pf U = true)
    (hsrc : alLookup srcMeta U = some (e, lm))
    (hnreal : U ∉ prev.realUids)
    (hnbusy : U ∉ prev.busyUids)
    (hntomb : U ∉ prev.tombstones)
    (hnotgt : ∀ x ∈ tgtParsed, x.2.1 ≠ U) :
    (∀ r, Op.createTgt r ∈ (busyReconcile prev srcMeta tgtParsed now pf).1 →
        uidOfRaw r ≠ U) ∧
    (∀ e' r, Op.updateTgt e' r ∈ (busyReconcile prev srcMeta tgtParsed now pf).1 →
        uidOfRaw r ≠ U) ∧
    alLookup (busyReconcile prev srcMeta tgtParsed now pf).2.synced U =
      some lm ∧
    U ∈ (busyReconcile prev srcMeta tgtParsed now pf).2.busyUids := by
  have hB' : alLookup (buildTgtMaps tgtParsed).2.1 U = none := by
    cases hb : alLookup (buildTgtMaps tgtParsed).2.1 U with
    | none => rfl
    | some p =>
        obtain ⟨e', t⟩ := p
        obtain ⟨htp, _⟩ := buildTgtMaps_busy_lookup hb
        exact absurd rfl (hnotgt _ htp)
  have hRealU : U ∉ (buildTgtMaps tgtParsed).2.2 := by
    intro hmem
    obtain ⟨e', t, htp, _⟩ := buildTgtMaps_realUids_origin hmem
    exact absurd rfl (hnotgt _ htp)
  have hT0 : U ∉ (busyPasses prev srcMeta tgtParsed).2.2 := by
    rw [busyPasses_tomb_mem]
    rintro (h | ⟨h, _⟩ | ⟨h, _⟩ | ⟨h, _⟩)
    · exact hntomb h
    · exact hnreal h
    · exact hnreal h
    · exact hnbusy h
  have hcond : ¬ ((U ∈ prev.realUids ∧
      U ∉ (buildTgtMaps tgtParsed).2.2) ∨
      (U ∈ prev.busyUids ∧ U ∉ alKeys (buildTgtMaps tgtParsed).2.1)) := by
    rintro (⟨h, _⟩ | ⟨h, _⟩)
    · exact hnreal h
    · exact hnbusy h
  have hS' : alLookup (busyPasses prev srcMeta tgtParsed).1 U = some (e, lm) := by
    rw [busyPasses_src_lookup, if_neg hcond]
    exact hsrc
  have hUuids : U ∈ busyUidsOf prev srcMeta tgtParsed := by
    rw [mem_busyUidsOf]
    exact Or.inr (Or.inl (mem_keys_of_alLookup_isSome (by simp [hS'])))
  have hdec : decide (U ∈ (busyAcc0Of prev srcMeta tgtParsed).tomb) = false :=
    decide_eq_false hT0
  refine ⟨?_, ?_, ?_, ?_⟩
  · intro r hmem hur
    rcases busyReconcile_ops_origin prev srcMeta tgtParsed now pf _ hmem
      with h | ⟨u, _, hstep⟩
    · rcases busyPasses_ops_origin prev srcMeta tgtParsed _ h with
        ⟨_, _, _, _, _, _, hop⟩ | ⟨_, hop⟩ <;> exact absurd hop (by simp)
    · obtain ⟨_, hshape⟩ := stepOps_shapes _ u _ _ hstep
      rcases hshape with ⟨_, _, hop, _⟩ | ⟨_, _, _, _, hop, _⟩ |
        ⟨_, _, _, hop, _, _, _, _⟩ | ⟨d1, d2, hop, _, _, hpfalse⟩ | ⟨_, _, hop⟩
      · exact absurd hop (by simp)
      · exact absurd hop (by simp)
      · exact absurd hop (by simp)
      · have hr : r = buildBusyIcal u d1 d2
            (busyCtxOf prev srcMeta tgtParsed now pf).now := by injection hop
        have huU : u = U := by
          rw [← hur, hr, uidOfRaw_buildBusyIcal]
        subst huU
        have : pf u = false := hpfalse
        rw [hpf] at this
        exact absurd this (by simp)
      · exact absurd hop (by simp)
  · intro e' r hmem hur
    rcases busyReconcile_ops_origin prev srcMeta tgtParsed now pf _ hmem
      with h | ⟨u, _, hstep⟩
    · rcases busyPasses_ops_origin prev srcMeta tgtParsed _ h with
        ⟨_, _, _, _, _, _, hop⟩ | ⟨_, hop⟩ <;> exact absurd hop (by simp)
    · obtain ⟨_, hshape⟩ := stepOps_shapes _ u _ _ hstep
      rcases hshape with ⟨_, _, hop, _⟩ | ⟨eB, t, d1, d2, hop, hBu⟩ |
        ⟨tcol, d1, d2, hop, hf, _, _, _⟩ | ⟨_, _, hop, _, _, _⟩ | ⟨_, _, hop⟩
      · exact absurd hop (by simp)
      · have hr : r = buildBusyIcal u d1 d2
            (busyCtxOf prev srcMeta tgtParsed now pf).now := by
          injection hop with h1 h2
        have huU : u = U := by
          rw [← hur, hr, uidOfRaw_buildBusyIcal]
        subst huU
        have : alLookup (buildTgtMaps tgtParsed).2.1 u = some (eB, t) := hBu
        rw [hB'] at this
        exact absurd this (by simp)
      · have hr : r = buildBusyIcal u d1 d2
            (busyCtxOf prev srcMeta tgtParsed now pf).now := by
          injection hop with h1 h2
        have huU : u = U := by
          rw [← hur, hr, uidOfRaw_buildBusyIcal]
        subst huU
        have htp : tcol ∈ tgtParsed := List.mem_of_find?_eq_some hf
        have hbeq := List.find?_some hf
        have : tcol.2.1 = u := by simpa using hbeq
        exact absurd this (hnotgt _ htp)
      · exact absurd hop (by simp)
      · exact absurd hop (by simp)
  · rw [busyReconcile_synced_eq]
    rw [loop_synced_lookup_mem _ _ _ U
      (busyUidsOf_nodup prev srcMeta tgtParsed) hUuids]
    rw [hdec]
    rw [stepSyncedVal_create hRealU hS' hB']
  · rw [busyReconcile_busy_eq]
    apply loop_busy_added _ _ _ U hUuids
    rw [hdec]
    exact stepAddsBusy_create hRealU hS' hB'

/-- Witness for the C10 theorem: one source event "u", `create_event` raising
`PutError`, and an empty fetched target view. -/
theorem busy_putfail_phantom_record_witness :
    alLookup (busyReconcile ⟨[], [], [], []⟩
        [("u", (⟨"a1", Raw.vevent "u" (some 10) none "Lunch" 1 2⟩, 10))]
        [] 100 (fun v => v == "u")).2.synced "u" = some 10 ∧
    "u" ∈ (busyReconcile ⟨[], [], [], []⟩
        [("u", (⟨"a1", Raw.vevent "u" (some 10) none "Lunch" 1 2⟩, 10))]
        [] 100 (fun v => v == "u")).2.busyUids :=
  ⟨(busy_putfail_phantom_record ⟨[], [], [], []⟩
      [("u", (⟨"a1", Raw.vevent "u" (some 10) none "Lunch" 1 2⟩, 10))]
      [] 100 (fun v => v == "u") "u"
      ⟨"a1", Raw.vevent "u" (some 10) none "Lunch" 1 2⟩ 10
      (by decide) (by decide) (by decide) (by decide) (by decide)
      (by intro x hx; simp at hx)).2.2.1,
   (busy_putfail_phantom_record ⟨[], [], [], []⟩
      [("u", (⟨"a1", Raw.vevent "u" (some 10) none "Lunch" 1 2⟩, 10))]
      [] 100 (fun v => v == "u") "u"
      ⟨"a1", Raw.vevent "u" (some 10) none "Lunch" 1 2⟩ 10
      (by decide) (by decide) (by decide) (by decide) (by decide)
      (by intro x hx; simp at hx)).2.2.2⟩

/-! ## Modelling the backend effect of executed operations (for idempotence)

The reconcilers mutate the remote calendars through the backend contract of
§6 and re-fetch them on the next run.  `applySrcOp` / `applyTgtOp` are
modelled from the spec: they give the next run's fetched per-uid view after
one executed operation, addressing events by their uid (§3 guarantees uid
uniqueness within a calendar view, and the opaque handle of an event
determines it). -/

/-- Modelled from the spec: the URL the server assigns to an event created
from `raw` (opaque; only its association to the event matters). -/
def newUrl (raw : Raw) : String := "created://" ++ uidOfRaw raw

/-- Replace the raw payload (and hence the parsed timestamp) of the entry
with the given key, keeping its URL. -/
def alUpdateRaw (m : FullMeta) (k : Uid) (raw : Raw) : FullMeta :=
  m.map fun p => if p.1 = k then (p.1, (tsOfRaw raw, ⟨p.2.2.url, raw⟩)) else p

/-- Modelled from the spec: effect of one executed operation on the source
calendar's fetched view. -/
def applySrcOp (m : FullMeta) (op : Op) : FullMeta :=
  match op with
  | Op.deleteSrc e => alErase m (uidOfRaw e.raw)
  | Op.createSrc raw => alInsert m (uidOfRaw raw) (tsOfRaw raw, ⟨newUrl raw, raw⟩)
  | Op.updateSrc e raw => alUpdateRaw m (uidOfRaw e.raw) raw
  | _ => m

/-- Modelled from the spec: effect of one executed operation on the target
calendar's fetched view. -/
def applyTgtOp (m : FullMeta) (op : Op) : FullMeta :=
  match op with
  | Op.deleteTgt e => alErase m (uidOfRaw e.raw)
  | Op.createTgt raw => alInsert m (uidOfRaw raw) (tsOfRaw raw, ⟨newUrl raw, raw⟩)
  | Op.updateTgt e raw => alUpdateRaw m (uidOfRaw e.raw) raw
  | _ => m

/-- The source-view key an operation touches, if any. -/
def opSrcKey : Op → Option Uid
  | Op.deleteSrc e => some (uidOfRaw e.raw)
  | Op.createSrc raw => some (uidOfRaw raw)
  | Op.updateSrc e _ => some (uidOfRaw e.raw)
  | _ => none

/-- The target-view key an operation touches, if any. -/
def opTgtKey : Op → Option Uid
  | Op.deleteTgt e => some (uidOfRaw e.raw)
  | Op.createTgt raw => some (uidOfRaw raw)
  | Op.updateTgt e _ => some (uidOfRaw e.raw)
  | _ => none

/-- Well-formedness of one metadata entry: the stored uid and timestamp are
what `_parse_ical_metadata` extracts from the stored raw blob.  This is the
defining property of the dicts built in step 3 of the sync functions. -/
def entryWF (p : Uid × (Ts × Event)) : Bool :=
  match parseIcalMetadata p.2.2.raw with
  | Except.ok (u, t) => u == p.1 && t == p.2.1
  | Except.error _ => false

/-- Well-formedness of a whole metadata view. -/
def fullMetaWF (m : FullMeta) : Bool := m.all entryWF

theorem fullMetaWF_lookup {m : FullMeta} {u : Uid} {t : Ts} {e : Event}
    (h : fullMetaWF m = true) (hl : alLookup m u = some (t, e)) :
    uidOfRaw e.raw = u ∧ tsOfRaw e.raw = t := by
  have hmem : (u, (t, e)) ∈ m := alLookup_mem hl
  have hent : entryWF (u, (t, e)) = true := by
    rw [fullMetaWF] at h
    exact List.all_eq_true.mp h _ hmem
  rw [entryWF] at hent
  cases hp : parseIcalMetadata e.raw with
  | ok q =>
      obtain ⟨u', t'⟩ := q
      rw [hp] at hent
      simp only [Bool.and_eq_true, beq_iff_eq] at hent
      constructor
      · rw [uidOfRaw, hp, hent.1]
      · rw [tsOfRaw, hp, hent.2]
  | error msg =>
      rw [hp] at hent
      exact absurd hent (by simp)

theorem alLookup_updateRaw_ne (m : FullMeta) (k : Uid) (raw : Raw) (x : Uid)
    (h : x ≠ k) : alLookup (alUpdateRaw m k raw) x = alLookup m x := by
  induction m with
  | nil => rfl
  | cons p rest ih =>
      obtain ⟨k', v⟩ := p
      simp only [alUpdateRaw, List.map_cons]
      by_cases hk : k' = k
      · rw [if_pos hk]
        subst hk
        rw [alLookup_cons, alLookup_cons,
          if_neg (fun hh : k' = x => h hh.symm),
          if_neg (fun hh : k' = x => h hh.symm)]
        simpa [alUpdateRaw] using ih
      · rw [if_neg hk, alLookup_cons, alLookup_cons]
        by_cases hx : k' = x
        · rw [if_pos hx, if_pos hx]
        · rw [if_neg hx, if_neg hx]
          simpa [alUpdateRaw] using ih

theorem alLookup_updateRaw_self (m : FullMeta) (k : Uid) (raw : Raw) :
    alLookup (alUpdateRaw m k raw) k =
      (alLookup m k).map fun v => (tsOfRaw raw, ⟨v.2.url, raw⟩) := by
  induction m with
  | nil => rfl
  | cons p rest ih =>
      obtain ⟨k', v⟩ := p
      simp only [alUpdateRaw, List.map_cons]
      by_cases hk : k' = k
      · rw [if_pos hk]
        subst hk
        rw [alLookup_cons, alLookup_cons, if_pos rfl, if_pos rfl]
        simp
      · rw [if_neg hk, alLookup_cons, alLookup_cons, if_neg hk, if_neg hk]
        simpa [alUpdateRaw] using ih

theorem applySrcOp_lookup_ne (m : FullMeta) (op : Op) (x : Uid)
    (h : opSrcKey op ≠ some x) : alLookup (applySrcOp m op) x = alLookup m x := by
  cases op with
  | deleteSrc e =>
      have : x ≠ uidOfRaw e.raw := fun hh => h (by rw [opSrcKey, hh])
      exact alLookup_erase_ne _ _ _ this
  | createSrc raw =>
      have : x ≠ uidOfRaw raw := fun hh => h (by rw [opSrcKey, hh])
      exact alLookup_insert_ne _ _ _ _ this
  | updateSrc e raw =>
      have : x ≠ uidOfRaw e.raw := fun hh => h (by rw [opSrcKey, hh])
      exact alLookup_updateRaw_ne _ _ _ _ this
  | deleteTgt e => rfl
  | createTgt raw => rfl
  | updateTgt e raw => rfl

theorem applyTgtOp_lookup_ne (m : FullMeta) (op : Op) (x : Uid)
    (h : opTgtKey op ≠ some x) : alLookup (applyTgtOp m op) x = alLookup m x := by
  cases op with
  | deleteTgt e =>
      have : x ≠ uidOfRaw e.raw := fun hh => h (by rw [opTgtKey, hh])
      exact alLookup_erase_ne _ _ _ this
  | createTgt raw =>
      have : x ≠ uidOfRaw raw := fun hh => h (by rw [opTgtKey, hh])
      exact alLookup_insert_ne _ _ _ _ this
  | updateTgt e raw =>
      have : x ≠ uidOfRaw e.raw := fun hh => h (by rw [opTgtKey, hh])
      exact alLookup_updateRaw_ne _ _ _ _ this
  | deleteSrc e => rfl
  | createSrc raw => rfl
  | updateSrc e raw => rfl

theorem applySrcOps_lookup_ne :
    ∀ (ops : List Op) (m : FullMeta) (x : Uid),
      (∀ op ∈ ops, opSrcKey op ≠ some x) →
      alLookup (ops.foldl applySrcOp m) x = alLookup m x := by
  intro ops
  induction ops with
  | nil => intro m x _; rfl
  | cons op rest ih =>
      intro m x h
      rw [List.foldl_cons, ih _ x fun o ho => h o (List.mem_cons_of_mem _ ho)]
      exact applySrcOp_lookup_ne m op x (h op (List.mem_cons_self _ _))

theorem applyTgtOps_lookup_ne :
    ∀ (ops : List Op) (m : FullMeta) (x : Uid),
      (∀ op ∈ ops, opTgtKey op ≠ some x) →
      alLookup (ops.foldl applyTgtOp m) x = alLookup m x := by
  intro ops
  induction ops with
  | nil => intro m x _; rfl
  | cons op rest ih =>
      intro m x h
      rw [List.foldl_cons, ih _ x fun o ho => h o (List.mem_cons_of_mem _ ho)]
      exact applyTgtOp_lookup_ne m op x (h op (List.mem_cons_self _ _))

/-- The operations the FULL reconciler emits for one uid (proof artifact). -/
def fullStepOps (old : List (Uid × Ts)) (mA mB : FullMeta) (v : Uid) : List Op :=
  (fullStep (alLookup old v) (alLookup mA v) (alLookup mB v)).1

theorem fullReconcile_ops_def (old : List (Uid × Ts)) (mA mB : FullMeta) :
    (fullReconcile old mA mB).1 =
      ((allUidsFull old mA mB).map (fullStepOps old mA mB)).flatten := rfl

theorem fullReconcile_state_def (old : List (Uid × Ts)) (mA mB : FullMeta) :
    (fullReconcile old mA mB).2 =
      (allUidsFull old mA mB).filterMap fun v =>
        ((fullStep (alLookup old v) (alLookup mA v) (alLookup mB v)).2).map
          fun ts => (v, ts) := rfl

theorem fullStep_opKeys {mA mB : FullMeta}
    (hA : fullMetaWF mA = true) (hB : fullMetaWF mB = true)
    (p : Option Ts) (u : Uid) :
    ∀ op ∈ (fullStep p (alLookup mA u) (alLookup mB u)).1,
      (opSrcKey op = none ∨ opSrcKey op = some u) ∧
      (opTgtKey op = none ∨ opTgtKey op = some u) := by
  intro op hop
  cases hSa : alLookup mA u with
  | some pa =>
      obtain ⟨lmA, eA⟩ := pa
      have huA : uidOfRaw eA.raw = u := (fullMetaWF_lookup hA hSa).1
      cases hSb : alLookup mB u with
      | none =>
          rw [hSa, hSb] at hop
          by_cases hp : p.isSome
          · simp only [fullStep, if_pos hp, List.mem_singleton] at hop
            subst hop
            exact ⟨Or.inr (by rw [opSrcKey, huA]), Or.inl rfl⟩
          · simp only [fullStep, if_neg hp, List.mem_singleton] at hop
            subst hop
            exact ⟨Or.inl rfl, Or.inr (by rw [opTgtKey, huA])⟩
      | some pb =>
          obtain ⟨lmB, eB⟩ := pb
          have huB : uidOfRaw eB.raw = u := (fullMetaWF_lookup hB hSb).1
          rw [hSa, hSb] at hop
          by_cases hgt : lmA > lmB
          · simp only [fullStep, if_pos hgt, List.mem_singleton] at hop
            subst hop
            exact ⟨Or.inl rfl, Or.inr (by rw [opTgtKey, huB])⟩
          · by_cases hlt : lmB > lmA
            · simp only [fullStep, if_neg hgt, if_pos hlt,
                List.mem_singleton] at hop
              subst hop
              exact ⟨Or.inr (by rw [opSrcKey, huA]), Or.inl rfl⟩
            · simp only [fullStep, if_neg hgt, if_neg hlt] at hop
              exact absurd hop (List.not_mem_nil _)
  | none =>
      cases hSb : alLookup mB u with
      | none =>
          rw [hSa, hSb] at hop
          exact absurd hop (List.not_mem_nil _)
      | some pb =>
          obtain ⟨lmB, eB⟩ := pb
          have huB : uidOfRaw eB.raw = u := (fullMetaWF_lookup hB hSb).1
          rw [hSa, hSb] at hop
          by_cases hp : p.isSome
          · simp only [fullStep, if_pos hp, List.mem_singleton] at hop
            subst hop
            exact ⟨Or.inl rfl, Or.inr (by rw [opTgtKey, huB])⟩
          · simp only [fullStep, if_neg hp, List.mem_singleton] at hop
            subst hop
            exact ⟨Or.inr (by rw [opSrcKey, huB]), Or.inl rfl⟩

theorem keys_subset_allUidsFull_A {old : List (Uid × Ts)} {mA mB : FullMeta}
    {u : Uid} (h : u ∈ alKeys mA) : u ∈ allUidsFull old mA mB := by
  rw [allUidsFull, List.mem_dedup]
  exact List.mem_append.mpr (Or.inl (List.mem_append.mpr (Or.inr h)))

theorem keys_subset_allUidsFull_B {old : List (Uid × Ts)} {mA mB : FullMeta}
    {u : Uid} (h : u ∈ alKeys mB) : u ∈ allUidsFull old mA mB := by
  rw [allUidsFull, List.mem_dedup]
  exact List.mem_append.mpr (Or.inr h)

theorem keys_subset_allUidsFull_old {old : List (Uid × Ts)} {mA mB : FullMeta}
    {u : Uid} (h : u ∈ alKeys old) : u ∈ allUidsFull old mA mB := by
  rw [allUidsFull, List.mem_dedup]
  exact List.mem_append.mpr (Or.inl (List.mem_append.mpr (Or.inl h)))

/-- After the first FULL run, rerunning the per-uid decision on the mutated
views yields no operation and reproduces the recorded entry, for every uid. -/
theorem full_second_run_step (old : List (Uid × Ts)) (mA mB : FullMeta)
    (hA : fullMetaWF mA = true) (hB : fullMetaWF mB = true) (u : Uid) :
    fullStep (alLookup (fullReconcile old mA mB).2 u)
      (alLookup ((fullReconcile old mA mB).1.foldl applySrcOp mA) u)
      (alLookup ((fullReconcile old mA mB).1.foldl applyTgtOp mB) u) =
      ([], alLookup (fullReconcile old mA mB).2 u) := by
  have hst : alLookup (fullReconcile old mA mB).2 u =
      if u ∈ allUidsFull old mA mB
      then (fullStep (alLookup old u) (alLookup mA u) (alLookup mB u)).2
      else none := by
    rw [fullReconcile_state_def]
    exact alLookup_filterMap_state _ _ _
  have hpart : ∀ (l : List Uid), u ∉ l →
      ∀ op ∈ (l.map (fullStepOps old mA mB)).flatten,
        opSrcKey op ≠ some u ∧ opTgtKey op ≠ some u := by
    intro l hul op hop
    rw [mem_flatten_map] at hop
    obtain ⟨v, hv, hvop⟩ := hop
    have hvu : v ≠ u := fun hh => hul (hh ▸ hv)
    obtain ⟨hs, ht⟩ := fullStep_opKeys hA hB (alLookup old v) v op hvop
    constructor
    · intro hk
      rcases hs with hs | hs
      · rw [hk] at hs; exact absurd hs (by simp)
      · rw [hk] at hs
        exact hvu (by injection hs with hh; exact hh.symm) |>.elim
    · intro hk
      rcases ht with ht | ht
      · rw [hk] at ht; exact absurd ht (by simp)
      · rw [hk] at ht
        exact hvu (by injection ht with hh; exact hh.symm) |>.elim
  by_cases hu : u ∈ allUidsFull old mA mB
  · obtain ⟨l1, l2, heq⟩ := List.append_of_mem hu
    have hnd : (allUidsFull old mA mB).Nodup := List.nodup_dedup _
    rw [heq] at hnd
    have hnd2 := List.nodup_append.mp hnd
    have hul2 : u ∉ l2 := (List.nodup_cons.mp hnd2.2.1).1
    have hul1 : u ∉ l1 := fun hmem => hnd2.2.2 hmem (List.mem_cons_self u l2)
    have hops : (fullReconcile old mA mB).1 =
        ((l1.map (fullStepOps old mA mB)).flatten) ++
          ((fullStepOps old mA mB u) ++
            ((l2.map (fullStepOps old mA mB)).flatten)) := by
      rw [fullReconcile_ops_def, heq, List.map_append, List.map_cons,
        List.flatten_append, List.flatten_cons]
    have hA1 : alLookup
        (((l1.map (fullStepOps old mA mB)).flatten).foldl applySrcOp mA) u =
        alLookup mA u :=
      applySrcOps_lookup_ne _ _ _ (fun op hop => (hpart l1 hul1 op hop).1)
    have hB1 : alLookup
        (((l1.map (fullStepOps old mA mB)).flatten).foldl applyTgtOp mB) u =
        alLookup mB u :=
      applyTgtOps_lookup_ne _ _ _ (fun op hop => (hpart l1 hul1 op hop).2)
    have hAfin : ∀ m : FullMeta,
        alLookup ((((l2.map (fullStepOps old mA mB)).flatten)).foldl
          applySrcOp m) u = alLookup m u :=
      fun m => applySrcOps_lookup_ne _ _ _ (fun op hop => (hpart l2 hul2 op hop).1)
    have hBfin : ∀ m : FullMeta,
        alLookup ((((l2.map (fullStepOps old mA mB)).flatten)).foldl
          applyTgtOp m) u = alLookup m u :=
      fun m => applyTgtOps_lookup_ne _ _ _ (fun op hop => (hpart l2 hul2 op hop).2)
    rw [hst, if_pos hu, hops]
    rw [List.foldl_append, List.foldl_append, List.foldl_append,
      List.foldl_append, hAfin, hBfin]
    cases hSa : alLookup mA u with
    | some pa =>
        obtain ⟨lmA, eA⟩ := pa
        obtain ⟨huA, htA⟩ := fullMetaWF_lookup hA hSa
        cases hSb : alLookup mB u with
        | none =>
            cases hpv : alLookup old u with
            | some ts0 =>
                simp only [fullStepOps, fullStep, hSa, hSb, hpv,
                  Option.isSome_some, if_true]
                rw [List.foldl_cons, List.foldl_nil, List.foldl_cons,
                  List.foldl_nil]
                show fullStep none
                  (alLookup (applySrcOp _ (Op.deleteSrc eA)) u)
                  (alLookup (applyTgtOp _ (Op.deleteSrc eA)) u) = ([], none)
                rw [show ∀ m : FullMeta, applyTgtOp m (Op.deleteSrc eA) = m
                    from fun m => rfl]
                rw [show ∀ m : FullMeta, applySrcOp m (Op.deleteSrc eA) =
                    alErase m (uidOfRaw eA.raw) from fun m => rfl]
                rw [huA, alLookup_erase_self, hB1, hSb]
                rfl
            | none =>
                simp only [fullStepOps, fullStep, hSa, hSb, hpv,
                  Option.isSome_none, Bool.false_eq_true, if_false]
                rw [List.foldl_cons, List.foldl_nil, List.foldl_cons,
                  List.foldl_nil]
                show fullStep (some lmA)
                  (alLookup (applySrcOp _ (Op.createTgt eA.raw)) u)
                  (alLookup (applyTgtOp _ (Op.createTgt eA.raw)) u) =
                  ([], some lmA)
                rw [show ∀ m : FullMeta, applySrcOp m (Op.createTgt eA.raw) = m
                    from fun m => rfl]
                rw [show ∀ m : FullMeta, applyTgtOp m (Op.createTgt eA.raw) =
                    alInsert m (uidOfRaw eA.raw)
                      (tsOfRaw eA.raw, ⟨newUrl eA.raw, eA.raw⟩)
                    from fun m => rfl]
                rw [huA, alLookup_insert_self, hA1, hSa, htA]
                simp [fullStep]
        | some pb =>
            obtain ⟨lmB, eB⟩ := pb
            obtain ⟨huB, htB⟩ := fullMetaWF_lookup hB hSb
            by_cases hgt : lmA > lmB
            · simp only [fullStepOps, fullStep, hSa, hSb, if_pos hgt]
              rw [List.foldl_cons, List.foldl_nil, List.foldl_cons,
                List.foldl_nil]
              show fullStep (some lmA)
                (alLookup (applySrcOp _ (Op.updateTgt eB eA.raw)) u)
                (alLookup (applyTgtOp _ (Op.updateTgt eB eA.raw)) u) =
                ([], some lmA)
              rw [show ∀ m : FullMeta, applySrcOp m (Op.updateTgt eB eA.raw) = m
                  from fun m => rfl]
              rw [show ∀ m : FullMeta, applyTgtOp m (Op.updateTgt eB eA.raw) =
                  alUpdateRaw m (uidOfRaw eB.raw) eA.raw from fun m => rfl]
              rw [huB, alLookup_updateRaw_self, hA1, hSa, hB1, hSb, htA]
              simp [fullStep]
            · by_cases hlt : lmB > lmA
              · simp only [fullStepOps, fullStep, hSa, hSb, if_neg hgt,
                  if_pos hlt]
                rw [List.foldl_cons, List.foldl_nil, List.foldl_cons,
                  List.foldl_nil]
                show fullStep (some lmB)
                  (alLookup (applySrcOp _ (Op.updateSrc eA eB.raw)) u)
                  (alLookup (applyTgtOp _ (Op.updateSrc eA eB.raw)) u) =
                  ([], some lmB)
                rw [show ∀ m : FullMeta, applyTgtOp m (Op.updateSrc eA eB.raw) = m
                    from fun m => rfl]
                rw [show ∀ m : FullMeta, applySrcOp m (Op.updateSrc eA eB.raw) =
                    alUpdateRaw m (uidOfRaw eA.raw) eB.raw from fun m => rfl]
                rw [huA, alLookup_updateRaw_self, hA1, hSa, hB1, hSb, htB]
                simp [fullStep]
              · simp only [fullStepOps, fullStep, hSa, hSb, if_neg hgt,
                  if_neg hlt]
                rw [List.foldl_nil, List.foldl_nil, hA1, hB1, hSa, hSb]
                simp [fullStep, hgt, hlt]
    | none =>
        cases hSb : alLookup mB u with
        | none =>
            simp only [fullStepOps, fullStep, hSa, hSb]
            rw [List.foldl_nil, List.foldl_nil, hA1, hB1, hSa, hSb]
        | some pb =>
            obtain ⟨lmB, eB⟩ := pb
            obtain ⟨huB, htB⟩ := fullMetaWF_lookup hB hSb
            cases hpv : alLookup old u with
            | some ts0 =>
                simp only [fullStepOps, fullStep, hSa, hSb, hpv,
                  Option.isSome_some, if_true]
                rw [List.foldl_cons, List.foldl_nil, List.foldl_cons,
                  List.foldl_nil]
                show fullStep none
                  (alLookup (applySrcOp _ (Op.deleteTgt eB)) u)
                  (alLookup (applyTgtOp _ (Op.deleteTgt eB)) u) = ([], none)
                rw [show ∀ m : FullMeta, applySrcOp m (Op.deleteTgt eB) = m
                    from fun m => rfl]
                rw [show ∀ m : FullMeta, applyTgtOp m (Op.deleteTgt eB) =
                    alErase m (uidOfRaw eB.raw) from fun m => rfl]
                rw [huB, alLookup_erase_self, hA1, hSa]
                rfl
            | none =>
                simp only [fullStepOps, fullStep, hSa, hSb, hpv,
                  Option.isSome_none, Bool.false_eq_true, if_false]
                rw [List.foldl_cons, List.foldl_nil, List.foldl_cons,
                  List.foldl_nil]
                show fullStep (some lmB)
                  (alLookup (applySrcOp _ (Op.createSrc eB.raw)) u)
                  (alLookup (applyTgtOp _ (Op.createSrc eB.raw)) u) =
                  ([], some lmB)
                rw [show ∀ m : FullMeta, applyTgtOp m (Op.createSrc eB.raw) = m
                    from fun m => rfl]
                rw [show ∀ m : FullMeta, applySrcOp m (Op.createSrc eB.raw) =
                    alInsert m (uidOfRaw eB.raw)
                      (tsOfRaw eB.raw, ⟨newUrl eB.raw, eB.raw⟩)
                    from fun m => rfl]
                rw [huB, alLookup_insert_self, hB1, hSb, htB]
                simp [fullStep]
  · have hopkeys : ∀ op ∈ (fullReconcile old mA mB).1,
        opSrcKey op ≠ some u ∧ opTgtKey op ≠ some u := by
      intro op hop
      rw [fullReconcile_ops_def, mem_flatten_map] at hop
      obtain ⟨v, hv, hvop⟩ := hop
      have hvu : v ≠ u := fun hh => hu (hh ▸ hv)
      obtain ⟨hs, ht⟩ := fullStep_opKeys hA hB (alLookup old v) v op hvop
      constructor
      · intro hk
        rcases hs with hs | hs
        · rw [hk] at hs; exact absurd hs (by simp)
        · rw [hk] at hs
          exact hvu (by injection hs with hh; exact hh.symm) |>.elim
      · intro hk
        rcases ht with ht | ht
        · rw [hk] at ht; exact absurd ht (by simp)
        · rw [hk] at ht
          exact hvu (by injection ht with hh; exact hh.symm) |>.elim
    have hmAnone : alLookup mA u = none := by
      apply alLookup_eq_none_of_not_mem_keys
      intro hmem
      exact hu (keys_subset_allUidsFull_A hmem)
    have hmBnone : alLookup mB u = none := by
      apply alLookup_eq_none_of_not_mem_keys
      intro hmem
      exact hu (keys_subset_allUidsFull_B hmem)
    rw [hst, if_neg hu]
    rw [applySrcOps_lookup_ne _ _ _ (fun op hop => (hopkeys op hop).1),
      applyTgtOps_lookup_ne _ _ _ (fun op hop => (hopkeys op hop).2),
      hmAnone, hmBnone]
    rfl

/-- Well-formedness of the FULL_ONEWAY source metadata: stored uid and
timestamp come from parsing the stored raw blob. -/
def onewaySrcWF (m : OnewaySrcMeta) : Bool :=
  m.all fun p =>
    match parseIcalMetadata p.2.2 with
    | Except.ok (u, t) => u == p.1 && t == p.2.1
    | Except.error _ => false

theorem onewaySrcWF_lookup {m : OnewaySrcMeta} {u : Uid} {t : Ts} {raw : Raw}
    (h : onewaySrcWF m = true) (hl : alLookup m u = some (t, raw)) :
    uidOfRaw raw = u ∧ tsOfRaw raw = t := by
  have hmem : (u, (t, raw)) ∈ m := alLookup_mem hl
  have hent := List.all_eq_true.mp h _ hmem
  cases hp : parseIcalMetadata raw with
  | ok q =>
      obtain ⟨u', t'⟩ := q
      rw [hp] at hent
      simp only [Bool.and_eq_true, beq_iff_eq] at hent
      constructor
      · rw [uidOfRaw, hp, hent.1]
      · rw [tsOfRaw, hp, hent.2]
  | error msg =>
      rw [hp] at hent
      exact absurd hent (by simp)

/-- The operations the FULL_ONEWAY reconciler emits for one uid. -/
def onewayStepOps (old : List (Uid × Ts)) (mS : OnewaySrcMeta)
    (mT : OnewayTgtMeta) (v : Uid) : List Op :=
  (onewayStep (alLookup old v) (alLookup mS v) (alLookup mT v)).1

theorem onewayReconcile_ops_def (old : List (Uid × Ts)) (mS : OnewaySrcMeta)
    (mT : OnewayTgtMeta) :
    (onewayReconcile old mS mT).1 =
      ((allUidsOneway old mS mT).map (onewayStepOps old mS mT)).flatten := rfl

theorem onewayReconcile_state_def (old : List (Uid × Ts)) (mS : OnewaySrcMeta)
    (mT : OnewayTgtMeta) :
    (onewayReconcile old mS mT).2 =
      (allUidsOneway old mS mT).filterMap fun v =>
        ((onewayStep (alLookup old v) (alLookup mS v) (alLookup mT v)).2).map
          fun ts => (v, ts) := rfl

theorem onewayStep_opKeys {mS : OnewaySrcMeta} {mT : OnewayTgtMeta}
    (hS : onewaySrcWF mS = true) (hT : fullMetaWF mT = true)
    (p : Option Ts) (u : Uid) :
    ∀ op ∈ (onewayStep p (alLookup mS u) (alLookup mT u)).1,
      opSrcKey op = none ∧ opTgtKey op = some u := by
  intro op hop
  cases hSa : alLookup mS u with
  | some ps =>
      obtain ⟨lmS, raw⟩ := ps
      have huS : uidOfRaw raw = u := (onewaySrcWF_lookup hS hSa).1
      cases hSb : alLookup mT u with
      | none =>
          rw [hSa, hSb] at hop
          rw [onewayStep, List.mem_singleton] at hop
          subst hop
          exact ⟨rfl, by rw [opTgtKey, huS]⟩
      | some pt =>
          obtain ⟨lmT, te⟩ := pt
          have huT : uidOfRaw te.raw = u := (fullMetaWF_lookup hT hSb).1
          rw [hSa, hSb] at hop
          by_cases hgt : lmS > lmT
          · rw [onewayStep, if_pos hgt, List.mem_singleton] at hop
            subst hop
            exact ⟨rfl, by rw [opTgtKey, huT]⟩
          · rw [onewayStep, if_neg hgt] at hop
            exact absurd hop (List.not_mem_nil _)
  | none =>
      cases hSb : alLookup mT u with
      | none =>
          rw [hSa, hSb] at hop
          exact absurd hop (List.not_mem_nil _)
      | some pt =>
          obtain ⟨lmT, te⟩ := pt
          have huT : uidOfRaw te.raw = u := (fullMetaWF_lookup hT hSb).1
          rw [hSa, hSb] at hop
          by_cases hp : p.isSome
          · rw [onewayStep, if_pos hp, List.mem_singleton] at hop
            subst hop
            exact ⟨rfl, by rw [opTgtKey, huT]⟩
          · rw [onewayStep, if_neg hp] at hop
            exact absurd hop (List.not_mem_nil _)

theorem keys_subset_allUidsOneway_old {old : List (Uid × Ts)}
    {mS : OnewaySrcMeta} {mT : OnewayTgtMeta} {u : Uid}
    (h : u ∈ alKeys old) : u ∈ allUidsOneway old mS mT := by
  rw [allUidsOneway, List.mem_dedup]
  exact List.mem_append.mpr (Or.inl (List.mem_append.mpr (Or.inl h)))

theorem keys_subset_allUidsOneway_S {old : List (Uid × Ts)}
    {mS : OnewaySrcMeta} {mT : OnewayTgtMeta} {u : Uid}
    (h : u ∈ alKeys mS) : u ∈ allUidsOneway old mS mT := by
  rw [allUidsOneway, List.mem_dedup]
  exact List.mem_append.mpr (Or.inl (List.mem_append.mpr (Or.inr h)))

theorem keys_subset_allUidsOneway_T {old : List (Uid × Ts)}
    {mS : OnewaySrcMeta} {mT : OnewayTgtMeta} {u : Uid}
    (h : u ∈ alKeys mT) : u ∈ allUidsOneway old mS mT := by
  rw [allUidsOneway, List.mem_dedup]
  exact List.mem_append.mpr (Or.inr h)

/-- After the first FULL_ONEWAY run, rerunning the per-uid decision on the
unchanged source and the mutated target yields no operation and reproduces
the recorded entry. -/
theorem oneway_second_run_step (old : List (Uid × Ts)) (mS : OnewaySrcMeta)
    (mT : OnewayTgtMeta) (hS : onewaySrcWF mS = true)
    (hT : fullMetaWF mT = true) (u : Uid) :
    onewayStep (alLookup (onewayReconcile old mS mT).2 u)
      (alLookup mS u)
      (alLookup ((onewayReconcile old mS mT).1.foldl applyTgtOp mT) u) =
      ([], alLookup (onewayReconcile old mS mT).2 u) := by
  have hst : alLookup (onewayReconcile old mS mT).2 u =
      if u ∈ allUidsOneway old mS mT
      then (onewayStep (alLookup old u) (alLookup mS u) (alLookup mT u)).2
      else none := by
    rw [onewayReconcile_state_def]
    exact alLookup_filterMap_state _ _ _
  have hpart : ∀ (l : List Uid), u ∉ l →
      ∀ op ∈ (l.map (onewayStepOps old mS mT)).flatten,
        opTgtKey op ≠ some u := by
    intro l hul op hop
    rw [mem_flatten_map] at hop
    obtain ⟨v, hv, hvop⟩ := hop
    have hvu : v ≠ u := fun hh => hul (hh ▸ hv)
    obtain ⟨_, ht⟩ := onewayStep_opKeys hS hT (alLookup old v) v op hvop
    intro hk
    rw [hk] at ht
    exact hvu (by injection ht with hh; exact hh.symm) |>.elim
  by_cases hu : u ∈ allUidsOneway old mS mT
  · obtain ⟨l1, l2, heq⟩ := List.append_of_mem hu
    have hnd : (allUidsOneway old mS mT).Nodup := List.nodup_dedup _
    rw [heq] at hnd
    have hnd2 := List.nodup_append.mp hnd
    have hul2 : u ∉ l2 := (List.nodup_cons.mp hnd2.2.1).1
    have hul1 : u ∉ l1 := fun hmem => hnd2.2.2 hmem (List.mem_cons_self u l2)
    have hops : (onewayReconcile old mS mT).1 =
        ((l1.map (onewayStepOps old mS mT)).flatten) ++
          ((onewayStepOps old mS mT u) ++
            ((l2.map (onewayStepOps old mS mT)).flatten)) := by
      rw [onewayReconcile_ops_def, heq, List.map_append, List.map_cons,
        List.flatten_append, List.flatten_cons]
    have hB1 : alLookup
        (((l1.map (onewayStepOps old mS mT)).flatten).foldl applyTgtOp mT) u =
        alLookup mT u :=
      applyTgtOps_lookup_ne _ _ _ (fun op hop => hpart l1 hul1 op hop)
    have hBfin : ∀ m : FullMeta,
        alLookup ((((l2.map (onewayStepOps old mS mT)).flatten)).foldl
          applyTgtOp m) u = alLookup m u :=
      fun m => applyTgtOps_lookup_ne _ _ _ (fun op hop => hpart l2 hul2 op hop)
    rw [hst, if_pos hu, hops]
    rw [List.foldl_append, List.foldl_append, hBfin]
    cases hSa : alLookup mS u with
    | some ps =>
        obtain ⟨lmS, raw⟩ := ps
        obtain ⟨huS, htS⟩ := onewaySrcWF_lookup hS hSa
        cases hSb : alLookup mT u with
        | none =>
            simp only [onewayStepOps, onewayStep, hSa, hSb]
            rw [List.foldl_cons, List.foldl_nil]
            rw [show ∀ m : FullMeta, applyTgtOp m (Op.createTgt raw) =
                alInsert m (uidOfRaw raw) (tsOfRaw raw, ⟨newUrl raw, raw⟩)
                from fun m => rfl]
            rw [huS, alLookup_insert_self, htS]
            simp
        | some pt =>
            obtain ⟨lmT, te⟩ := pt
            obtain ⟨huT, htT⟩ := fullMetaWF_lookup hT hSb
            by_cases hgt : lmS > lmT
            · simp only [onewayStepOps, onewayStep, hSa, hSb, if_pos hgt]
              rw [List.foldl_cons, List.foldl_nil]
              rw [show ∀ m : FullMeta, applyTgtOp m (Op.updateTgt te raw) =
                  alUpdateRaw m (uidOfRaw te.raw) raw from fun m => rfl]
              rw [huT, alLookup_updateRaw_self, hB1, hSb, htS]
              simp
            · simp only [onewayStepOps, onewayStep, hSa, hSb, if_neg hgt]
              rw [List.foldl_nil, hB1, hSb]
              simp [hgt]
    | none =>
        cases hSb : alLookup mT u with
        | none =>
            simp only [onewayStepOps, onewayStep, hSa, hSb]
            rw [List.foldl_nil, hB1, hSb]
        | some pt =>
            obtain ⟨lmT, te⟩ := pt
            obtain ⟨huT, htT⟩ := fullMetaWF_lookup hT hSb
            cases hpv : alLookup old u with
            | some ts0 =>
                simp only [onewayStepOps, onewayStep, hSa, hSb, hpv,
                  Option.isSome_some, if_true]
                rw [List.foldl_cons, List.foldl_nil]
                rw [show ∀ m : FullMeta, applyTgtOp m (Op.deleteTgt te) =
                    alErase m (uidOfRaw te.raw) from fun m => rfl]
                rw [huT, alLookup_erase_self]
            | none =>
                simp only [onewayStepOps, onewayStep, hSa, hSb, hpv,
                  Option.isSome_none, Bool.false_eq_true, if_false]
                rw [List.foldl_nil, hB1, hSb]
  · have hopkeys : ∀ op ∈ (onewayReconcile old mS mT).1,
        opTgtKey op ≠ some u := by
      intro op hop
      rw [onewayReconcile_ops_def, mem_flatten_map] at hop
      obtain ⟨v, hv, hvop⟩ := hop
      have hvu : v ≠ u := fun hh => hu (hh ▸ hv)
      obtain ⟨_, ht⟩ := onewayStep_opKeys hS hT (alLookup old v) v op hvop
      intro hk
      rw [hk] at ht
      exact hvu (by injection ht with hh; exact hh.symm) |>.elim
    have hmSnone : alLookup mS u = none := by
      apply alLookup_eq_none_of_not_mem_keys
      intro hmem
      exact hu (keys_subset_allUidsOneway_S hmem)
    have hmTnone : alLookup mT u = none := by
      apply alLookup_eq_none_of_not_mem_keys
      intro hmem
      exact hu (keys_subset_allUidsOneway_T hmem)
    rw [hst, if_neg hu]
    rw [applyTgtOps_lookup_ne _ _ _ (fun op hop => hopkeys op hop),
      hmSnone, hmTnone]
    rfl

theorem flatten_nil_of_all {β : Type} {f : Uid → List β} :
    ∀ {l : List Uid}, (∀ v ∈ l, f v = []) → (l.map f).flatten = [] := by
  intro l
  induction l with
  | nil => intro _; rfl
  | cons v rest ih =>
      intro h
      rw [List.map_cons, List.flatten_cons, h v (List.mem_cons_self _ _),
        ih fun w hw => h w (List.mem_cons_of_mem _ hw)]
      rfl

/-- Modelled from the spec: effect of an executed operation on the BUSY
target view (list of parsed fetched events). -/
def applyBusyTgtOp (l : TgtParsed) (op : Op) : TgtParsed :=
  match op with
  | Op.createTgt raw => l ++ [(⟨newUrl raw, raw⟩, uidOfRaw raw, tsOfRaw raw)]
  | Op.deleteTgt e => l.filter fun t => !(t.2.1 == uidOfRaw e.raw)
  | Op.updateTgt e raw =>
      l.map fun t =>
        if t.2.1 = uidOfRaw e.raw then (⟨t.1.url, raw⟩, uidOfRaw raw, tsOfRaw raw)
        else t
  | _ => l

/-- Modelled from the spec: effect of an executed operation on the BUSY
source metadata view. -/
def applyBusySrcOp (m : BusySrcMeta) (op : Op) : BusySrcMeta :=
  match op with
  | Op.deleteSrc e => alErase m (uidOfRaw e.raw)
  | Op.createSrc raw => alInsert m (uidOfRaw raw) (⟨newUrl raw, raw⟩, tsOfRaw raw)
  | Op.updateSrc e raw =>
      m.map fun p =>
        if p.1 = uidOfRaw e.raw then (p.1, (⟨p.2.1.url, raw⟩, tsOfRaw raw)) else p
  | _ => m

/-- C4 counterexample: the BUSY mode is not idempotent.  One source event,
empty target, empty state; the first run creates the Busy placeholder (whose
DTSTAMP is the run's wall-clock time 100).  With no external change, the
second run sees the placeholder's timestamp 100 beat the source's 10 and
issues a mutation (the feedback patch of the source), and its persisted
state differs from the first run's. -/
theorem sync_busy_not_idempotent_counterexample :
    (busyReconcile
        (busyReconcile ⟨[], [], [], []⟩
          [("u", (⟨"a1", Raw.vevent "u" (some 10) none "Lunch" 1 2⟩, 10))]
          [] 100 (fun _ => false)).2
        ((busyReconcile ⟨[], [], [], []⟩
          [("u", (⟨"a1", Raw.vevent "u" (some 10) none "Lunch" 1 2⟩, 10))]
          [] 100 (fun _ => false)).1.foldl applyBusySrcOp
            [("u", (⟨"a1", Raw.vevent "u" (some 10) none "Lunch" 1 2⟩, 10))])
        ((busyReconcile ⟨[], [], [], []⟩
          [("u", (⟨"a1", Raw.vevent "u" (some 10) none "Lunch" 1 2⟩, 10))]
          [] 100 (fun _ => false)).1.foldl applyBusyTgtOp [])
        200 (fun _ => false)).1 ≠ [] ∧
    (busyReconcile
        (busyReconcile ⟨[], [], [], []⟩
          [("u", (⟨"a1", Raw.vevent "u" (some 10) none "Lunch" 1 2⟩, 10))]
          [] 100 (fun _ => false)).2
        ((busyReconcile ⟨[], [], [], []⟩
          [("u", (⟨"a1", Raw.vevent "u" (some 10) none "Lunch" 1 2⟩, 10))]
          [] 100 (fun _ => false)).1.foldl applyBusySrcOp
            [("u", (⟨"a1", Raw.vevent "u" (some 10) none "Lunch" 1 2⟩, 10))])
        ((busyReconcile ⟨[], [], [], []⟩
          [("u", (⟨"a1", Raw.vevent "u" (some 10) none "Lunch" 1 2⟩, 10))]
          [] 100 (fun _ => false)).1.foldl applyBusyTgtOp [])
        200 (fun _ => false)).2 ≠
      (busyReconcile ⟨[], [], [], []⟩
        [("u", (⟨"a1", Raw.vevent "u" (some 10) none "Lunch" 1 2⟩, 10))]
        [] 100 (fun _ => false)).2 := by
  decide

/-- C4 amended: running the engine twice back-to-back with no external
change yields identical state and zero backend mutations on the second run
in FULL and FULL_ONEWAY modes; BUSY mode does not satisfy this (the
counterexample shows a second-run mutation caused by the placeholder's
creation-time DTSTAMP).  The well-formedness hypotheses state that the
metadata dicts were built by parsing the fetched events, which holds for
every dict the sync functions construct. -/
theorem full_and_oneway_idempotent
    (old : List (Uid × Ts)) (mA mB : FullMeta)
    (hA : fullMetaWF mA = true) (hB : fullMetaWF mB = true)
    (oldW : List (Uid × Ts)) (mS : OnewaySrcMeta) (mT : OnewayTgtMeta)
    (hS : onewaySrcWF mS = true) (hT : fullMetaWF mT = true) :
    ((fullReconcile (fullReconcile old mA mB).2
        ((fullReconcile old mA mB).1.foldl applySrcOp mA)
        ((fullReconcile old mA mB).1.foldl applyTgtOp mB)).1 = [] ∧
     ∀ u, alLookup (fullReconcile (fullReconcile old mA mB).2
        ((fullReconcile old mA mB).1.foldl applySrcOp mA)
        ((fullReconcile old mA mB).1.foldl applyTgtOp mB)).2 u =
       alLookup (fullReconcile old mA mB).2 u) ∧
    ((∀ op ∈ (onewayReconcile oldW mS mT).1, opSrcKey op = none) ∧
     (onewayReconcile (onewayReconcile oldW mS mT).2 mS
        ((onewayReconcile oldW mS mT).1.foldl applyTgtOp mT)).1 = [] ∧
     ∀ u, alLookup (onewayReconcile (onewayReconcile oldW mS mT).2 mS
        ((onewayReconcile oldW mS mT).1.foldl applyTgtOp mT)).2 u =
       alLookup (onewayReconcile oldW mS mT).2 u) := by
  refine ⟨⟨?_, ?_⟩, ?_, ?_, ?_⟩
  · rw [fullReconcile_ops_def]
    apply flatten_nil_of_all
    intro v _
    have h := full_second_run_step old mA mB hA hB v
    rw [fullStepOps]
    rw [h]
  · intro u
    have hchar : alLookup (fullReconcile (fullReconcile old mA mB).2
        ((fullReconcile old mA mB).1.foldl applySrcOp mA)
        ((fullReconcile old mA mB).1.foldl applyTgtOp mB)).2 u =
        if u ∈ allUidsFull (fullReconcile old mA mB).2
            ((fullReconcile old mA mB).1.foldl applySrcOp mA)
            ((fullReconcile old mA mB).1.foldl applyTgtOp mB)
        then (fullStep
          (alLookup (fullReconcile old mA mB).2 u)
          (alLookup ((fullReconcile old mA mB).1.foldl applySrcOp mA) u)
          (alLookup ((fullReconcile old mA mB).1.foldl applyTgtOp mB) u)).2
        else none := by
      rw [fullReconcile_state_def]
      exact alLookup_filterMap_state _ _ _
    rw [hchar]
    by_cases hu : u ∈ allUidsFull (fullReconcile old mA mB).2
        ((fullReconcile old mA mB).1.foldl applySrcOp mA)
        ((fullReconcile old mA mB).1.foldl applyTgtOp mB)
    · rw [if_pos hu, full_second_run_step old mA mB hA hB u]
    · rw [if_neg hu]
      cases hl : alLookup (fullReconcile old mA mB).2 u with
      | none => rfl
      | some ts =>
          exfalso
          apply hu
          apply keys_subset_allUidsFull_old
          exact mem_keys_of_alLookup_isSome (by simp [hl])
  · intro op hop
    rw [onewayReconcile_ops_def, mem_flatten_map] at hop
    obtain ⟨v, _, hvop⟩ := hop
    exact (onewayStep_opKeys hS hT (alLookup oldW v) v op hvop).1
  · rw [onewayReconcile_ops_def]
    apply flatten_nil_of_all
    intro v _
    have h := oneway_second_run_step oldW mS mT hS hT v
    rw [onewayStepOps]
    rw [h]
  · intro u
    have hchar : alLookup (onewayReconcile (onewayReconcile oldW mS mT).2 mS
        ((onewayReconcile oldW mS mT).1.foldl applyTgtOp mT)).2 u =
        if u ∈ allUidsOneway (onewayReconcile oldW mS mT).2 mS
            ((onewayReconcile oldW mS mT).1.foldl applyTgtOp mT)
        then (onewayStep
          (alLookup (onewayReconcile oldW mS mT).2 u)
          (alLookup mS u)
          (alLookup ((onewayReconcile oldW mS mT).1.foldl applyTgtOp mT) u)).2
        else none := by
      rw [onewayReconcile_state_def]
      exact alLookup_filterMap_state _ _ _
    rw [hchar]
    by_cases hu : u ∈ allUidsOneway (onewayReconcile oldW mS mT).2 mS
        ((onewayReconcile oldW mS mT).1.foldl applyTgtOp mT)
    · rw [if_pos hu, oneway_second_run_step oldW mS mT hS hT u]
    · rw [if_neg hu]
      cases hl : alLookup (onewayReconcile oldW mS mT).2 u with
      | none => rfl
      | some ts =>
          exfalso
          apply hu
          apply keys_subset_allUidsOneway_old
          exact mem_keys_of_alLookup_isSome (by simp [hl])

/-- Witness for the amended C4 theorem on the S1 scenario (one event on A,
empty B, empty state). -/
theorem full_and_oneway_idempotent_witness :
    (fullReconcile
        (fullReconcile []
          [("u", (10, ⟨"a1", Raw.vevent "u" (some 10) none "Meet" 1 2⟩))] []).2
        ((fullReconcile []
          [("u", (10, ⟨"a1", Raw.vevent "u" (some 10) none "Meet" 1 2⟩))] []).1.foldl
          applySrcOp [("u", (10, ⟨"a1", Raw.vevent "u" (some 10) none "Meet" 1 2⟩))])
        ((fullReconcile []
          [("u", (10, ⟨"a1", Raw.vevent "u" (some 10) none "Meet" 1 2⟩))] []).1.foldl
          applyTgtOp [])).1 = [] :=
  (full_and_oneway_idempotent []
    [("u", (10, ⟨"a1", Raw.vevent "u" (some 10) none "Meet" 1 2⟩))] []
    (by decide) (by decide) [] [] [] (by decide) (by decide)).1.1

/-- Witness for C5 (delete of a target event whose uid is in the previous
state). -/
theorem oneway_delete_requires_prior_presence_witness :
    ∃ u ts,
      alLookup ([("u", (10, ⟨"b1", Raw.vevent "u" (some 10) none "Meet" 1 2⟩))] :
        OnewayTgtMeta) u =
        some (ts, ⟨"b1", Raw.vevent "u" (some 10) none "Meet" 1 2⟩) ∧
      (alLookup ([("u", 10)] : List (Uid × Ts)) u).isSome :=
  (oneway_delete_requires_prior_presence [("u", 10)] []
    [("u", (10, ⟨"b1", Raw.vevent "u" (some 10) none "Meet" 1 2⟩))]).1
    ⟨"b1", Raw.vevent "u" (some 10) none "Meet" 1 2⟩ (by decide)

/-! ## State files: JSON values, the three loaders, serialisation, persist

A state file's content is `FileContent`: `absent` (`os.path.exists` false),
`malformed` (opening or `json.load` raises), or a parsed JSON value.
Timestamps are serialised with `isoformat()` and parsed with
`datetime.fromisoformat`; the embedding uses a decimal string form
(`toString` / `parseTs`), which is likewise injective and rejects
non-timestamp strings such as a mode tag's value. -/

/-- A parsed JSON value. -/
inductive JValue where
  | jnull
  | jbool (b : Bool)
  | jnum (n : Int)
  | jstr (s : String)
  | jarr (elems : List JValue)
  | jobj (fields : List (String × JValue))

/-- Content of a state file as the loaders see it. -/
inductive FileContent where
  | absent
  | malformed
  | json (j : JValue)

/-- The timestamp codec used in state files, modelling
`datetime.fromisoformat`: a non-empty all-digit string parses, anything
else raises (`none`). -/
def parseTs (s : String) : Option Ts :=
  if s.data ≠ [] ∧ s.data.all Char.isDigit then
    some (Int.ofNat (s.data.foldl (fun n c => 10 * n + (c.toNat - 48)) 0))
  else none

/-- One entry of a serialised timestamp map:
`datetime.fromisoformat(ts)` applied to the entry's value. -/
def fullEntryParse (p : String × JValue) : Except String (String × Ts) :=
  match p.2 with
  | JValue.jstr s =>
      match parseTs s with
      | some t => Except.ok (p.1, t)
      | none => Except.error "invalid isoformat string"
  | _ => Except.error "fromisoformat: argument must be str"

/-- The state-loading block of `sync_caldav_caldav` (lines 46–54): no
try/except and no mode tag — a missing file yields the empty state, any
exception from `json.load`, `.items()` or `fromisoformat` propagates and
aborts the run. -/
def loadFullState : FileContent → Except String (List (Uid × Ts))
  | FileContent.absent => Except.ok []
  | FileContent.malformed => Except.error "json decode error"
  | FileContent.json (JValue.jobj fields) => fields.mapM fullEntryParse
  | FileContent.json _ => Except.error "AttributeError: items"

/-- The `synced` field extraction of `sync_caldav_busy` (lines 171–172):
`data.get("synced", {})` followed by a `fromisoformat` comprehension. -/
def busySyncedField (fields : List (String × JValue)) :
    Except String (List (Uid × Ts)) :=
  match alLookup fields "synced" with
  | none => Except.ok []
  | some (JValue.jobj sf) => sf.mapM fullEntryParse
  | some _ => Except.error "AttributeError: items"

/-- A `set(data.get(name, []))` extraction of `sync_caldav_busy` (lines
173–175): lists keep their string elements (non-string members can never
equal a string uid), dicts contribute their keys, strings their characters;
non-iterables raise. -/
def busySetField (fields : List (String × JValue)) (name : String) :
    Except String (List Uid) :=
  match alLookup fields name with
  | none => Except.ok []
  | some (JValue.jarr xs) =>
      Except.ok (xs.foldl
        (fun acc v =>
          match v with
          | JValue.jstr s => setAdd acc s
          | _ => acc) [])
  | some (JValue.jobj fs) =>
      Except.ok (fs.foldl (fun acc p => setAdd acc p.1) [])
  | some (JValue.jstr s) =>
      Except.ok (s.data.foldl (fun acc c => setAdd acc (String.mk [c])) [])
  | some _ => Except.error "TypeError: not iterable"

/-- The state-loading block of `sync_caldav_busy` (lines 167–180): no
try/except and no mode tag; missing keys default to empty, exceptions
propagate. -/
def loadBusyState : FileContent → Except String BusyState
  | FileContent.absent => Except.ok ⟨[], [], [], []⟩
  | FileContent.malformed => Except.error "json decode error"
  | FileContent.json (JValue.jobj fields) => do
      let sy ← busySyncedField fields
      let bu ← busySetField fields "busy_uids"
      let tb ← busySetField fields "tombstones"
      let ru ← busySetField fields "real_uids"
      pure ⟨sy, bu, tb, ru⟩
  | FileContent.json _ => Except.error "AttributeError: get"

/-- The entry loop of the `full_oneway` loader (lines 354–358): entries are
added one by one into `old_state`; a bad timestamp raises mid-loop, and the
surrounding except keeps whatever was accumulated so far. -/
def parseOnewayEntries : List (String × JValue) → List (Uid × Ts) →
    List (Uid × Ts)
  | [], acc => acc
  | (u, v) :: rest, acc =>
      if u = "__mode" then parseOnewayEntries rest acc
      else
        match v with
        | JValue.jstr s =>
            match parseTs s with
            | some t => parseOnewayEntries rest (acc ++ [(u, t)])
            | none => acc
        | _ => acc

/-- The state-loading block of `sync_caldav_full_oneway` (lines 349–362):
everything is inside try/except, and the `__mode` tag is checked — absent,
unreadable, malformed and wrong-mode files all give the empty state. -/
def loadOnewayState : FileContent → List (Uid × Ts)
  | FileContent.absent => []
  | FileContent.malformed => []
  | FileContent.json (JValue.jobj fields) =>
      match alLookup fields "__mode" with
      | some (JValue.jstr m) =>
          if m = "full_oneway" then parseOnewayEntries fields [] else []
      | _ => []
  | FileContent.json _ => []

/-- A filesystem action performed while persisting state. -/
inductive FsOp where
  | openTrunc (path : String)
  | writeAll (path : String) (content : JValue)
  | rename (src dst : String)

/-- Serialisation of the FULL-mode state (`json.dump(new_state, f)`). -/
def serializeFullState (st : List (Uid × Ts)) : JValue :=
  JValue.jobj (st.map fun p => (p.1, JValue.jstr (toString p.2)))

/-- Serialisation of the BUSY-mode state (step 8 of `sync_caldav_busy`). -/
def serializeBusyState (st : BusyState) : JValue :=
  JValue.jobj
    [("synced", JValue.jobj (st.synced.map fun p =>
        (p.1, JValue.jstr (toString p.2)))),
     ("busy_uids", JValue.jarr (st.busyUids.map JValue.jstr)),
     ("tombstones", JValue.jarr (st.tombstones.map JValue.jstr)),
     ("real_uids", JValue.jarr (st.realUids.map JValue.jstr))]

/-- Serialisation of the FULL_ONEWAY state with its `__mode` tag (step 6 of
`sync_caldav_full_oneway`). -/
def serializeOnewayState (st : List (Uid × Ts)) : JValue :=
  JValue.jobj (("__mode", JValue.jstr "full_oneway") ::
    st.map fun p => (p.1, JValue.jstr (toString p.2)))

/-- Filesystem trace of the FULL-mode persist (lines 126–128):
`with open(state_path, "w") as f: json.dump(new_state, f, indent=2)`. -/
def persistFullStateTrace (path : String) (st : List (Uid × Ts)) : List FsOp :=
  [FsOp.openTrunc path, FsOp.writeAll path (serializeFullState st)]

/-- Filesystem trace of the BUSY-mode persist (lines 307–314). -/
def persistBusyStateTrace (path : String) (st : BusyState) : List FsOp :=
  [FsOp.openTrunc path, FsOp.writeAll path (serializeBusyState st)]

/-- Filesystem trace of the FULL_ONEWAY persist (lines 431–435). -/
def persistOnewayStateTrace (path : String) (st : List (Uid × Ts)) :
    List FsOp :=
  [FsOp.openTrunc path, FsOp.writeAll path (serializeOnewayState st)]

/-- Whether a trace contains a rename. -/
def hasRename (l : List FsOp) : Bool :=
  l.any fun op =>
    match op with
    | FsOp.rename _ _ => true
    | _ => false

/-- The path an action touches (for a rename, its destination). -/
def fsOpPath : FsOp → String
  | FsOp.openTrunc p => p
  | FsOp.writeAll p _ => p
  | FsOp.rename _ d => d

/-- The metadata-building loops of `sync_caldav_caldav` (lines 66–74):
`_parse_ical_metadata` is called with no surrounding try/except, so its
exception propagates out of the whole run. -/
def buildMeta (evts : List Event) : Except String FullMeta :=
  evts.foldlM
    (fun m e => do
      let md ← parseIcalMetadata e.raw
      pure (alInsert m md.1 (md.2, e)))
    []

/-- A FULL-mode run up to reconciliation: load state (lines 46–54), build
both metadata maps (lines 66–74), reconcile (lines 76–124). -/
def syncFullRun (file : FileContent) (evtsA evtsB : List Event) :
    Except String (List Op × List (Uid × Ts)) := do
  let old ← loadFullState file
  let mA ← buildMeta evtsA
  let mB ← buildMeta evtsB
  pure (fullReconcile old mA mB)

theorem except_bind_error {α β : Type} (msg : String)
    (k : α → Except String β) :
    (Except.error msg >>= k : Except String β) = Except.error msg := rfl

theorem except_bind_ok {α β : Type} (a : α) (k : α → Except String β) :
    ((Except.ok a : Except String α) >>= k) = k a := rfl

theorem mapM_error_of_mem {α β : Type} (f : α → Except String β) :
    ∀ (l : List α) (a : α), a ∈ l → (∃ msg, f a = Except.error msg) →
      ∃ msg, l.mapM f = Except.error msg := by
  intro l
  induction l with
  | nil => intro a ha; exact absurd ha (List.not_mem_nil a)
  | cons x xs ih =>
      intro a ha hfa
      rw [List.mapM_cons]
      cases hfx : f x with
      | error m =>
          rw [except_bind_error]
          exact ⟨m, rfl⟩
      | ok b =>
          rw [except_bind_ok]
          rcases List.mem_cons.mp ha with rfl | hmem
          · rcases hfa with ⟨msg, hmsg⟩
            rw [hfx] at hmsg
            exact absurd hmsg (by simp)
          · rcases ih a hmem hfa with ⟨m, hm⟩
            rw [hm, except_bind_error]
            exact ⟨m, rfl⟩

theorem foldlM_error_of_mem (f : FullMeta → Event → Except String FullMeta) :
    ∀ (l : List Event) (m0 : FullMeta) (e : Event), e ∈ l →
      (∀ m : FullMeta, ∃ msg, f m e = Except.error msg) →
      ∃ msg, l.foldlM f m0 = Except.error msg := by
  intro l
  induction l with
  | nil => intro m0 e he; exact absurd he (List.not_mem_nil e)
  | cons x xs ih =>
      intro m0 e he hfe
      rw [List.foldlM_cons]
      cases hfx : f m0 x with
      | error m =>
          rw [except_bind_error]
          exact ⟨m, rfl⟩
      | ok m1 =>
          rw [except_bind_ok]
          rcases List.mem_cons.mp he with rfl | hmem
          · rcases hfe m0 with ⟨msg, hmsg⟩
            rw [hfx] at hmsg
            exact absurd hmsg (by simp)
          · exact ih m1 e hmem hfe

theorem buildMeta_error_of_mem (evts : List Event) (e : Event)
    (he : e ∈ evts) (hbad : ∃ msg, parseIcalMetadata e.raw = Except.error msg) :
    ∃ msg, buildMeta evts = Except.error msg := by
  unfold buildMeta
  refine foldlM_error_of_mem _ evts [] e he ?_
  intro m
  rcases hbad with ⟨msg, hmsg⟩
  rw [show (do
      let md ← parseIcalMetadata e.raw
      pure (alInsert m md.1 (md.2, e)) : Except String FullMeta) =
    (parseIcalMetadata e.raw >>= fun md =>
      pure (alInsert m md.1 (md.2, e))) from rfl, hmsg, except_bind_error]
  exact ⟨msg, rfl⟩

/-- C6 counterexample: a malformed state file does abort — the FULL and BUSY
loaders run `json.load` outside any try/except, and the FULL loader also
raises on a well-formed JSON value that is not an object.  Only the
FULL_ONEWAY loader returns the empty state. -/
theorem state_loading_malformed_aborts_counterexample :
    loadFullState FileContent.malformed = Except.error "json decode error" ∧
    loadBusyState FileContent.malformed = Except.error "json decode error" ∧
    loadFullState (FileContent.json (JValue.jarr [])) =
      Except.error "AttributeError: items" ∧
    loadOnewayState FileContent.malformed = [] :=
  ⟨rfl, rfl, rfl, rfl⟩

/-- C6 (amended): all three loaders give the empty state on an absent file;
only the FULL_ONEWAY loader tolerates malformed content and checks a mode
tag (returning empty on a missing or different tag).  The FULL loader has no
mode tag at all and aborts on a `full_oneway`-tagged file because the tag's
value is not a parseable timestamp; the BUSY loader has no mode tag either
and silently reads a wrong-mode file whose keys it does not recognise as the
empty BUSY state. -/
theorem state_loading_fallback_behavior
    (fieldsF fieldsB fieldsO fieldsN : List (String × JValue)) (m : String)
    (hmem : ("__mode", JValue.jstr "full_oneway") ∈ fieldsF)
    (hs : alLookup fieldsB "synced" = none)
    (hb : alLookup fieldsB "busy_uids" = none)
    (ht : alLookup fieldsB "tombstones" = none)
    (hr : alLookup fieldsB "real_uids" = none)
    (hm : alLookup fieldsO "__mode" = some (JValue.jstr m))
    (hne : m ≠ "full_oneway")
    (hn : alLookup fieldsN "__mode" = none) :
    (loadFullState FileContent.absent = Except.ok [] ∧
      loadBusyState FileContent.absent = Except.ok ⟨[], [], [], []⟩ ∧
      loadOnewayState FileContent.absent = []) ∧
    (∃ msg, loadFullState (FileContent.json (JValue.jobj fieldsF)) =
      Except.error msg) ∧
    loadBusyState (FileContent.json (JValue.jobj fieldsB)) =
      Except.ok ⟨[], [], [], []⟩ ∧
    loadOnewayState (FileContent.json (JValue.jobj fieldsO)) = [] ∧
    loadOnewayState (FileContent.json (JValue.jobj fieldsN)) = [] := by
  refine ⟨⟨rfl, rfl, rfl⟩, ?_, ?_, ?_, ?_⟩
  · show ∃ msg, fieldsF.mapM fullEntryParse = Except.error msg
    refine mapM_error_of_mem fullEntryParse fieldsF
      ("__mode", JValue.jstr "full_oneway") hmem ?_
    refine ⟨"invalid isoformat string", ?_⟩
    have hpt : parseTs "full_oneway" = none := by decide
    show (match parseTs "full_oneway" with
      | some t => Except.ok (("__mode", JValue.jstr "full_oneway").1, t)
      | none => Except.error "invalid isoformat string") =
      Except.error "invalid isoformat string"
    rw [hpt]
  · have h1 : busySyncedField fieldsB = Except.ok [] := by
      simp only [busySyncedField, hs]
    have h2 : busySetField fieldsB "busy_uids" = Except.ok [] := by
      simp only [busySetField, hb]
    have h3 : busySetField fieldsB "tombstones" = Except.ok [] := by
      simp only [busySetField, ht]
    have h4 : busySetField fieldsB "real_uids" = Except.ok [] := by
      simp only [busySetField, hr]
    simp only [loadBusyState]
    rw [h1, except_bind_ok, h2, except_bind_ok, h3, except_bind_ok, h4,
      except_bind_ok]
    rfl
  · simp only [loadOnewayState, hm]
    rw [if_neg hne]
  · simp only [loadOnewayState, hn]

/-- Witness for C6 at concrete files: a `full_oneway`-tagged file fed to the
FULL loader, an empty object fed to the BUSY loader, a wrong-mode and an
untagged object fed to the FULL_ONEWAY loader. -/
theorem state_loading_fallback_behavior_witness :
    (loadFullState FileContent.absent = Except.ok [] ∧
      loadBusyState FileContent.absent = Except.ok ⟨[], [], [], []⟩ ∧
      loadOnewayState FileContent.absent = []) ∧
    (∃ msg, loadFullState (FileContent.json
      (JValue.jobj [("__mode", JValue.jstr "full_oneway")])) =
      Except.error msg) ∧
    loadBusyState (FileContent.json (JValue.jobj [])) =
      Except.ok ⟨[], [], [], []⟩ ∧
    loadOnewayState (FileContent.json
      (JValue.jobj [("__mode", JValue.jstr "busy")])) = [] ∧
    loadOnewayState (FileContent.json (JValue.jobj [("u", JValue.jstr "7")]))
      = [] :=
  state_loading_fallback_behavior
    [("__mode", JValue.jstr "full_oneway")] [] [("__mode", JValue.jstr "busy")]
    [("u", JValue.jstr "7")] "busy"
    (List.mem_singleton.mpr rfl) rfl rfl rfl rfl rfl (by decide) rfl

/-- C7 counterexample: no persist path ever renames — the trace of each
persist on concrete inputs contains no rename, and its first action is a
truncating open of the state file itself, so a crash between the open and
the write leaves a truncated file. -/
theorem persist_no_atomic_rename_counterexample :
    hasRename (persistFullStateTrace "sync_state.json" []) = false ∧
    hasRename (persistBusyStateTrace "busy_sync_state.json"
      ⟨[], [], [], []⟩) = false ∧
    hasRename (persistOnewayStateTrace "full_sync_state.json" []) = false ∧
    FsOp.openTrunc "sync_state.json" ∈
      persistFullStateTrace "sync_state.json" [] :=
  ⟨rfl, rfl, rfl, List.Mem.head _⟩

/-- C7 (amended): every persist, in every mode, is a plain truncating write
of the serialised state to the state path itself — the trace is exactly
open-for-write followed by one write, contains no rename, and touches only
the state path. -/
theorem persist_trace_shape (path : String) (st : List (Uid × Ts))
    (stB : BusyState) (stO : List (Uid × Ts)) :
    persistFullStateTrace path st =
      [FsOp.openTrunc path, FsOp.writeAll path (serializeFullState st)] ∧
    persistBusyStateTrace path stB =
      [FsOp.openTrunc path, FsOp.writeAll path (serializeBusyState stB)] ∧
    persistOnewayStateTrace path stO =
      [FsOp.openTrunc path, FsOp.writeAll path (serializeOnewayState stO)] ∧
    hasRename (persistFullStateTrace path st) = false ∧
    hasRename (persistBusyStateTrace path stB) = false ∧
    hasRename (persistOnewayStateTrace path stO) = false ∧
    (∀ op ∈ persistFullStateTrace path st, fsOpPath op = path) ∧
    (∀ op ∈ persistBusyStateTrace path stB, fsOpPath op = path) ∧
    (∀ op ∈ persistOnewayStateTrace path stO, fsOpPath op = path) := by
  refine ⟨rfl, rfl, rfl, rfl, rfl, rfl, ?_, ?_, ?_⟩
  all_goals
    intro op hop
    simp only [persistFullStateTrace, persistBusyStateTrace,
      persistOnewayStateTrace, List.mem_cons, List.not_mem_nil,
      or_false] at hop
    rcases hop with rfl | rfl <;> rfl

/-- C8 counterexample: one event whose raw bytes hold no VEVENT aborts the
whole FULL run — the other, healthy event is not reconciled and nothing is
persisted. -/
theorem codec_error_aborts_counterexample :
    syncFullRun FileContent.absent
      [⟨"a1", Raw.vevent "u" (some 10) none "Meet" 1 2⟩, ⟨"a2", Raw.noVevent⟩]
      [] = Except.error "No VEVENT found in ical data" := rfl

/-- C8 (amended): `_parse_ical_metadata` runs with no surrounding try/except,
so a single event whose metadata cannot be parsed makes the entire FULL run
fail with an error instead of being skipped. -/
theorem codec_error_aborts_run (file : FileContent)
    (evtsA evtsB : List Event) (e : Event) (he : e ∈ evtsA)
    (hbad : ∃ msg, parseIcalMetadata e.raw = Except.error msg) :
    ∃ msg, syncFullRun file evtsA evtsB = Except.error msg := by
  unfold syncFullRun
  cases hload : loadFullState file with
  | error m =>
      rw [except_bind_error]
      exact ⟨m, rfl⟩
  | ok old =>
      rw [except_bind_ok]
      rcases buildMeta_error_of_mem evtsA e he hbad with ⟨m, hm⟩
      rw [hm, except_bind_error]
      exact ⟨m, rfl⟩

/-- Witness for C8: the concrete two-event source view with one VEVENT-less
blob. -/
theorem codec_error_aborts_run_witness :
    ∃ msg, syncFullRun FileContent.absent
      [⟨"a1", Raw.vevent "u" (some 10) none "Meet" 1 2⟩, ⟨"a2", Raw.noVevent⟩]
      [] = Except.error msg :=
  codec_error_aborts_run FileContent.absent
    [⟨"a1", Raw.vevent "u" (some 10) none "Meet" 1 2⟩, ⟨"a2", Raw.noVevent⟩]
    [] ⟨"a2", Raw.noVevent⟩ (by decide)
    ⟨"No VEVENT found in ical data", rfl⟩

end CalSync
